import Mathlib

/-!
Verification of the intent-gated governance hook system (hook engine,
intent catalog lifecycle, trace ledger, spatial map, context builder).

Strings from the TypeScript sources are modelled as `List Char` (`Str`),
so that the character-level operations of the sources (split on newline,
substring search, glob matching) are directly executable and provable.
Tool names, which are only ever compared for equality or set membership,
are kept as Lean `String`.
-/

namespace Hooks

/-- Character-list strings, the model of JavaScript strings. -/
abbrev Str := List Char

/-- Membership of a character-level needle inside a haystack, the model of
JavaScript `String.prototype.includes`. -/
def containsSub (needle haystack : Str) : Bool :=
  decide (needle <:+: haystack)

/-- Prefix test, the model of JavaScript `String.prototype.startsWith`. -/
def startsWith (p l : Str) : Bool :=
  decide (p <+: l)

/-- Last-character test, the model of JavaScript `String.prototype.endsWith`
for a single-character suffix. -/
def endsWithChar (c : Char) (l : Str) : Bool :=
  decide ([c] <:+ l)

/-- Whitespace trim on both ends, the model of `String.prototype.trim`. -/
def trimWs (l : Str) : Str :=
  (l.dropWhile Char.isWhitespace).reverse.dropWhile Char.isWhitespace |>.reverse

/-- Split on `'\n'`, the model of `content.split("\n")`. -/
def splitOnNl : Str → List Str
  | [] => [[]]
  | c :: rest =>
    if c = '\n' then [] :: splitOnNl rest
    else
      match splitOnNl rest with
      | [] => [[c]]
      | s :: ss => (c :: s) :: ss

/-- Join with `'\n'` separators, the model of `lines.join("\n")`. -/
def joinNl : List Str → Str
  | [] => []
  | [l] => l
  | l :: rest => l ++ '\n' :: joinNl rest

/-- Take of the first `n` characters, the model of `s.slice(0, n)`. -/
def sliceTo (n : Nat) (l : Str) : Str :=
  l.take n

-- ---------------------------------------------------------------------------
-- Tool classification (src/core/hooks/types.ts)
-- ---------------------------------------------------------------------------

/-- Tools that mutate the workspace and require an active intent
(`WRITE_TOOLS` in `types.ts`). -/
def WRITE_TOOLS : List String :=
  ["write_to_file", "apply_diff", "edit", "search_and_replace",
   "search_replace", "edit_file", "apply_patch", "insert_code_block"]

/-- Destructive tools that require active intent plus human-in-the-loop
approval (`DESTRUCTIVE_TOOLS` in `types.ts`). -/
def DESTRUCTIVE_TOOLS : List String :=
  ["execute_command", "delete_file"]

/-- Tools exempt from intent validation (`EXEMPT_TOOLS` in `types.ts`). -/
def EXEMPT_TOOLS : List String :=
  ["read_file", "read_command_output", "list_files", "search_files",
   "codebase_search", "ask_followup_question", "attempt_completion",
   "switch_mode", "new_task", "update_todo_list", "run_slash_command",
   "select_active_intent", "use_mcp_tool", "access_mcp_resource",
   "browser_action", "skill", "generate_image", "custom_tool"]

-- ---------------------------------------------------------------------------
-- Intent data model (src/core/hooks/types.ts)
-- ---------------------------------------------------------------------------

/-- Intent lifecycle status (`IntentStatus` in `types.ts`). -/
inductive IntentStatus
  | PENDING
  | IN_PROGRESS
  | COMPLETE
  | BLOCKED
  | ARCHIVED
deriving DecidableEq, Repr

/-- Mutation classification (`MutationClass` in `types.ts`). -/
inductive MutationClass
  | AST_REFACTOR
  | INTENT_EVOLUTION
  | BUG_FIX
  | DOCUMENTATION
  | CONFIGURATION
  | FILE_CREATION
  | FILE_DELETION
deriving DecidableEq, Repr

/-- Reference kinds of `related_specs` (`SpecReference` in `types.ts`). -/
inductive SpecRefType
  | speckit
  | github_issue
  | github_pr
  | constitution
  | external
deriving DecidableEq, Repr

/-- One `related_specs` entry (`SpecReference` in `types.ts`). -/
structure SpecReference where
  type : SpecRefType
  ref : Str
deriving DecidableEq, Repr

/-- An intent of the catalog (`IntentSpec` in `types.ts`). -/
structure IntentSpec where
  id : Str
  name : Str
  status : IntentStatus
  version : Option Nat := none
  owned_scope : List Str
  constraints : List Str
  acceptance_criteria : List Str
  related_specs : Option (List SpecReference) := none
  parent_intent : Option Str := none
  tags : Option (List Str) := none
  created_at : Str
  updated_at : Str
deriving DecidableEq, Repr

/-- Catalog lookup by id: `intents.find((i) => i.id === intentId)`
(`IntentContextLoader.getIntent`). -/
def getIntent (catalog : List IntentSpec) (intentId : Str) : Option IntentSpec :=
  catalog.find? (fun i => i.id = intentId)

-- ---------------------------------------------------------------------------
-- Glob matching.
--
-- `IntentIgnore.patternToRegExp` (IntentIgnore.ts) compiles a glob to an
-- anchored regular expression: `**/` becomes `(?:.+/)?`, `**` becomes `.*`,
-- `*` becomes `[^/]*`, `?` becomes `[^/]`, regex metacharacters are escaped
-- (so every other character matches literally).  The same semantics is
-- specified for the scope matcher in the hook utilities.  Instead of a
-- regex engine we compile to a token list and match with backtracking,
-- which is extensionally the compiled regex's match.
-- ---------------------------------------------------------------------------

/-- Tokens of a compiled glob pattern. -/
inductive GlobTok
  | lit (c : Char)
  | star
  | qmark
  | globstar
  | globstarSlash
deriving DecidableEq, Repr

/-- Tokenizer for glob patterns, following the compilation loop of
`IntentIgnore.patternToRegExp`: `**/`, `**`, `*`, `?`, then literals. -/
def tokenizeGlob : Str → List GlobTok
  | [] => []
  | '*' :: '*' :: '/' :: rest => .globstarSlash :: tokenizeGlob rest
  | '*' :: '*' :: rest => .globstar :: tokenizeGlob rest
  | '*' :: rest => .star :: tokenizeGlob rest
  | '?' :: rest => .qmark :: tokenizeGlob rest
  | c :: rest => .lit c :: tokenizeGlob rest

/-- Character class of the JavaScript regex `.` (dot): any character that is
not a line terminator. -/
def notLineTerm (c : Char) : Bool :=
  !(c = '\n' || c = '\r' || c = '\u2028' || c = '\u2029')

/-- Acceptance of the empty input by a compiled glob: only quantifier
tokens (`*`, `**`, `(?:.+/)?`) can match nothing. -/
def nullableGlob : List GlobTok → Bool
  | [] => true
  | .star :: ts => nullableGlob ts
  | .globstar :: ts => nullableGlob ts
  | .globstarSlash :: ts => nullableGlob ts
  | .lit _ :: _ => false
  | .qmark :: _ => false

/-- One backtracking step of the glob matcher on the input's first
character `d`: `k ts` continues the match of `ts` against the input's
tail.  `globstarSlash` (`(?:.+/)?`) consumes `d` as the alternative
`. .* /`. -/
def globStep (d : Char) (k : List GlobTok → Bool) : List GlobTok → Bool
  | [] => false
  | .lit c :: ts => c = d && k ts
  | .qmark :: ts => (d ≠ '/' : Bool) && k ts
  | .star :: ts =>
      globStep d k ts || ((d ≠ '/' : Bool) && k (.star :: ts))
  | .globstar :: ts =>
      globStep d k ts || (notLineTerm d && k (.globstar :: ts))
  | .globstarSlash :: ts =>
      globStep d k ts || (notLineTerm d && k (.globstar :: .lit '/' :: ts))

/-- Backtracking matcher core, by recursion on the input characters. -/
def globMatchRev : Str → List GlobTok → Bool
  | [], ts => nullableGlob ts
  | d :: ds, ts => globStep d (fun ts2 => globMatchRev ds ts2) ts

/-- Backtracking matcher for a compiled glob against a character list,
anchored at both ends (the compiled regex is `^...$`): literal and `[^/]`
tokens consume one character, `[^/]*` and `.*` consume any run via
backtracking, and `globstarSlash` (`(?:.+/)?`) matches nothing or
`. .* /`. -/
def globMatch (ts : List GlobTok) (cs : Str) : Bool :=
  globMatchRev cs ts

/-- Path normalization: replace backslashes by forward slashes
(`relativePath.replace(/\\/g, "/")`). -/
def normalizeSlashes (l : Str) : Str :=
  l.map (fun c => if c = '\\' then '/' else c)

/-- Modelled from the spec: compilation of one `owned_scope` pattern by the
scope matcher of the hook utilities (`globToRegExp` in the current
`utils.ts`, which is absent from the provided sources; only its tests and
the architecture report describe it).  Per the spec the pattern compiles
exactly as in `IntentIgnore.patternToRegExp`: `**`, `*`, `?`, escaped
literals, anchored at both ends. -/
def scopeCompile (pattern : Str) : List GlobTok :=
  tokenizeGlob pattern

/-- Modelled from the spec: `isInScope(relPath, patterns)` of the current
`utils.ts` (absent from the provided sources) returns true iff at least one
pattern matches; input paths are normalized by replacing backslashes with
forward slashes. -/
def isInScope (relPath : Str) (patterns : List Str) : Bool :=
  patterns.any (fun p => globMatch (scopeCompile p) (normalizeSlashes relPath))

/-- Compilation of one `.intentignore` pattern
(`IntentIgnore.patternToRegExp`): strip a leading `!` (negation is accepted
but has no effect), normalize backslashes, append `**` to a trailing `/`,
then tokenize. -/
def ignoreCompile (pattern : Str) : List GlobTok :=
  let p0 := match pattern with
    | '!' :: rest => rest
    | other => other
  let p1 := normalizeSlashes p0
  let p2 := if endsWithChar '/' p1 then p1 ++ ('*' :: '*' :: []) else p1
  tokenizeGlob p2

/-- Loading of `.intentignore` (`IntentIgnore.load`): split the file into
lines, trim, drop blank lines and `#` comments, compile each pattern; a
missing file yields no patterns. -/
def loadIgnore (content : Option Str) : List (List GlobTok) :=
  match content with
  | none => []
  | some c =>
    ((splitOnNl c).map trimWs).filter
      (fun l => decide (l ≠ []) && !startsWith ('#' :: []) l)
    |>.map ignoreCompile

/-- Ignore test (`IntentIgnore.isIgnored`): false when no patterns are
loaded, otherwise true iff some compiled pattern matches the
slash-normalized path. -/
def isIgnored (patterns : List (List GlobTok)) (relPath : Str) : Bool :=
  if patterns.isEmpty then false
  else patterns.any (fun t => globMatch t (normalizeSlashes relPath))

-- ---------------------------------------------------------------------------
-- Hashing (spec-modelled computeFileHash of the current utils.ts)
-- ---------------------------------------------------------------------------

/-- Result of reading a file: content, absent, or another I/O error. -/
inductive FsResult
  | ok (content : Str)
  | enoent
  | ioError
deriving DecidableEq, Repr

/-- Content hash: `"sha256:"` followed by the digest of the content.  The
SHA-256 digest itself is an injected parameter (`digest`); every property
proved here is independent of the concrete digest function. -/
def computeContentHash (digest : Str → Str) (content : Str) : Str :=
  ("sha256:".data) ++ digest content

/-- Modelled from the spec: `computeFileHash(absPath)` of the current
`utils.ts` (absent from the provided sources; only its tests, callers and
the architecture report describe it).  Returns the content hash of a
readable file and `null` when the path does not exist; all other I/O
errors are logged and also yield `null`, so the function never throws. -/
def computeFileHash (fs : Str → FsResult) (digest : Str → Str) (absPath : Str) :
    Option Str :=
  match fs absPath with
  | .ok content => some (computeContentHash digest content)
  | .enoent => none
  | .ioError => none

-- ---------------------------------------------------------------------------
-- Lifecycle (src/core/hooks/IntentLifecycleManager.ts)
-- ---------------------------------------------------------------------------

/-- Legal status transitions (`VALID_TRANSITIONS` /
`IntentLifecycleManager.validateTransition`). -/
def validateTransition (from_ to_ : IntentStatus) : Bool :=
  match from_ with
  | .PENDING => to_ = .IN_PROGRESS || to_ = .ARCHIVED
  | .IN_PROGRESS => to_ = .COMPLETE || to_ = .BLOCKED || to_ = .ARCHIVED
  | .BLOCKED => to_ = .IN_PROGRESS || to_ = .ARCHIVED
  | .COMPLETE => to_ = .ARCHIVED
  | .ARCHIVED => false

/-- Error message of an illegal transition (prefix of the thrown message). -/
def illegalTransitionMsg : Str :=
  "Illegal transition".data

/-- Error message for a missing intent. -/
def intentNotFoundMsg : Str :=
  "not found".data

/-- Persistent transition (`IntentLifecycleManager.transitionIntent`): walk
the parsed catalog, find the first intent with the requested id, throw on
an illegal transition, otherwise set `status` and `updated_at` and write
back.  An `Except.error` models a throw before `fs.writeFile`, so the
catalog file is not modified in the error cases. -/
def transitionIntent (catalog : List IntentSpec) (intentId : Str)
    (newStatus : IntentStatus) (now : Str) : Except Str (List IntentSpec) :=
  match catalog with
  | [] => .error intentNotFoundMsg
  | i :: rest =>
    if i.id = intentId then
      if validateTransition i.status newStatus then
        .ok ({ i with status := newStatus, updated_at := now } :: rest)
      else
        .error illegalTransitionMsg
    else
      (transitionIntent rest intentId newStatus now).map (i :: ·)

-- ---------------------------------------------------------------------------
-- Hook engine (src/core/hooks/HookEngine.ts)
-- ---------------------------------------------------------------------------

/-- Path test, the model of `path.isAbsolute` on POSIX paths. -/
def isAbsolutePath (p : Str) : Bool :=
  startsWith ('/' :: []) p

/-- Path join, the model of `path.join(workspacePath, filePath)` for a
workspace without a trailing separator. -/
def joinPath (ws p : Str) : Str :=
  ws ++ ('/' :: []) ++ p

/-- Modelled from the spec: `toRelativePath(absPath, workspacePath)` of the
current `utils.ts` (absent from the provided sources; its tests show that
it strips the workspace root and normalizes backslashes to forward
slashes). -/
def toRelativePath (abs ws : Str) : Str :=
  let pre := ws ++ ('/' :: [])
  normalizeSlashes (if startsWith pre abs then abs.drop pre.length else abs)

/-- Workspace-relative form of a tool's file path, as computed in
`HookEngine.preToolUse`:
`path.isAbsolute(filePath) ? toRelativePath(filePath, ws) : filePath`. -/
def relPathOf (ws fp : Str) : Str :=
  if isAbsolutePath fp then toRelativePath fp ws else fp

/-- Decision returned by `HITLGate.requestApproval`. -/
structure HitlDecision where
  approved : Bool
  reason : Option Str := none
deriving DecidableEq, Repr

/-- Metadata tags attached to allowed results by `HookEngine.preToolUse`. -/
inductive MetaTag
  | exempt
  | destructive
  | unclassified
  | intentIgnored
deriving DecidableEq, Repr

/-- Result of a hook invocation (`HookResult` in `types.ts`).  `preHash` is
`none` when the field is absent and `some none` when it is `null`. -/
structure HookResult where
  allowed : Bool
  reason : Option Str := none
  preHash : Option (Option Str) := none
  metadata : Option MetaTag := none
deriving DecidableEq, Repr

/-- Pre-hook invocation context (`PreToolContext` in `types.ts`); the unused
`params` payload is omitted. -/
structure PreToolContext where
  toolName : String
  filePath : Option Str := none
  intentId : Option Str := none
  sessionId : Str := []
deriving DecidableEq, Repr

/-- Immutable collaborators of one engine instance: workspace root, parsed
catalog, compiled ignore patterns, filesystem, digest, and the HITL
approval capability. -/
structure Env where
  workspacePath : Str
  catalog : List IntentSpec
  ignoreToks : List (List GlobTok)
  fs : Str → FsResult
  digest : Str → Str
  hitl : String → Option Str → HitlDecision

/-- Per-session mutable state of a `HookEngine` instance: engine mode,
active intent, and the optimistic-lock hash cache. -/
inductive EngineMode
  | UNINITIALIZED
  | IDLE
  | ACTIVE
deriving DecidableEq, Repr

/-- Mutable per-session engine state (`HookEngine` instance fields). -/
structure EngineState where
  activeIntentId : Option Str := none
  mode : EngineMode := .IDLE
  fileHashCache : List (Str × Str) := []
deriving DecidableEq, Repr

/-- Lookup in the hash cache (`this.fileHashCache.get`). -/
def cacheGet (cache : List (Str × Str)) (k : Str) : Option Str :=
  (cache.find? (fun e => e.1 = k)).map (·.2)

/-- Update of the hash cache (`this.fileHashCache.set`): replace the first
binding of the key, else append. -/
def cacheSet : List (Str × Str) → Str → Str → List (Str × Str)
  | [], k, v => [(k, v)]
  | e :: rest, k, v => if e.1 = k then (k, v) :: rest else e :: cacheSet rest k v

/-- Rendering of a status for interpolation into reason strings. -/
def statusStr : IntentStatus → Str
  | .PENDING => "PENDING".data
  | .IN_PROGRESS => "IN_PROGRESS".data
  | .COMPLETE => "COMPLETE".data
  | .BLOCKED => "BLOCKED".data
  | .ARCHIVED => "ARCHIVED".data

/-- Reason of the destructive-tool no-intent rejection. -/
def destructiveNoIntentReason (toolName : String) : Str :=
  "No active intent. Call select_active_intent(intent_id) before using ".data ++
    toolName.data ++
    ". Destructive commands require intent context for auditability.".data

/-- Reason of the intent-not-found rejection. -/
def intentNotFoundReason (intentId : Str) : Str :=
  "Intent \"".data ++ intentId ++ "\" not found in active_intents.yaml.".data

/-- Reason of the destructive-tool status rejection. -/
def destructiveStatusReason (intentId : Str) (status : IntentStatus) : Str :=
  "Intent \"".data ++ intentId ++ "\" has status \"".data ++ statusStr status ++
    "\". Only IN_PROGRESS intents can run destructive commands.".data

/-- Reason of the write-tool no-intent rejection (step 3). -/
def noActiveIntentReason (toolName : String) : Str :=
  "No active intent. Call select_active_intent(intent_id) before using ".data ++
    toolName.data ++
    ". Available intents are defined in .orchestration/active_intents.yaml.".data

/-- Status-specific rejection messages of step 4 (`statusMessages`). -/
def statusGateReason (intentId : Str) (status : IntentStatus) : Str :=
  match status with
  | .PENDING =>
    "Intent \"".data ++ intentId ++
      "\" is PENDING. Call select_active_intent() to activate it.".data
  | .BLOCKED =>
    "Intent \"".data ++ intentId ++
      "\" is BLOCKED. Resolve the blocker before continuing.".data
  | .COMPLETE =>
    "Intent \"".data ++ intentId ++
      "\" is COMPLETE. No further mutations allowed.".data
  | .ARCHIVED =>
    "Intent \"".data ++ intentId ++
      "\" is ARCHIVED and cannot be selected.".data
  | .IN_PROGRESS =>
    "Intent \"".data ++ intentId ++ "\" has status \"IN_PROGRESS\".".data

/-- Reason of the scope-violation rejection (step 5). -/
def scopeViolationReason (relPath intentId : Str) (owned : List Str) : Str :=
  "Scope violation: \"".data ++ relPath ++ "\" is not in ".data ++ intentId ++
    "'s owned_scope [".data ++ List.intercalate (", ".data) owned ++
    "]. Amend the intent's owned_scope in active_intents.yaml to include this path.".data

/-- Reason of the stale-file rejection (step 7), with both hashes truncated
to 12 characters followed by `...` and the directive to re-read. -/
def staleFileReason (relPath cachedHash preHash : Str) : Str :=
  "Stale file: \"".data ++ relPath ++ "\" was modified since last read. Expected hash ".data ++
    sliceTo 12 cachedHash ++ "... but found ".data ++ sliceTo 12 preHash ++
    "... Re-read the file before writing.".data

/-- Step 7 of `HookEngine.preToolUse`: compute the pre-mutation hash and
detect stale reads against the per-session cache.  The guard
`if (preHash && WRITE_TOOLS.has(toolName))` is faithful because a computed
hash always carries the non-empty `sha256:` prefix, so its truthiness is
exactly its presence. -/
def preHashStep (env : Env) (st : EngineState) (ctx : PreToolContext)
    (_intentId : Str) : HookResult × EngineState :=
  match ctx.filePath with
  | none => ({ allowed := true, preHash := some none }, st)
  | some fp =>
    match computeFileHash env.fs env.digest
        (if isAbsolutePath fp then fp else joinPath env.workspacePath fp) with
    | none => ({ allowed := true, preHash := some none }, st)
    | some h =>
      if WRITE_TOOLS.contains ctx.toolName then
        match cacheGet st.fileHashCache (relPathOf env.workspacePath fp) with
        | some cached =>
          if cached ≠ h then
            ({ allowed := false,
               reason := some
                 (staleFileReason (relPathOf env.workspacePath fp) cached h) }, st)
          else
            ({ allowed := true, preHash := some (some h) },
             { st with fileHashCache :=
                 cacheSet st.fileHashCache (relPathOf env.workspacePath fp) h })
        | none =>
          ({ allowed := true, preHash := some (some h) },
           { st with fileHashCache :=
               cacheSet st.fileHashCache (relPathOf env.workspacePath fp) h })
      else
        ({ allowed := true, preHash := some (some h) }, st)

/-- Step 6 then step 7 of `HookEngine.preToolUse`: the HITL gate for
destructive tools (`HITLGate.isDestructive`), then the optimistic lock.
The lesson recorder invoked on failures is fire-and-forget and does not
touch the engine state, so it is not part of this model. -/
def hitlAndHashStep (env : Env) (st : EngineState) (ctx : PreToolContext)
    (intentId : Str) : HookResult × EngineState :=
  if DESTRUCTIVE_TOOLS.contains ctx.toolName then
    if (env.hitl ctx.toolName ctx.filePath).approved then
      preHashStep env st ctx intentId
    else
      ({ allowed := false, reason := (env.hitl ctx.toolName ctx.filePath).reason }, st)
  else
    preHashStep env st ctx intentId

/-- The gate `HookEngine.preToolUse` (HookEngine.ts): exempt pass-through,
destructive HITL branch, write-without-intent rejection, unclassified
pass-through, intent existence and status gates, ignore-list bypass,
scope fence, and the optimistic lock.  Returns the hook result together
with the engine state after the call. -/
def preToolUse (env : Env) (st : EngineState) (ctx : PreToolContext) :
    HookResult × EngineState :=
  if EXEMPT_TOOLS.contains ctx.toolName then
    ({ allowed := true, metadata := some .exempt }, st)
  else if DESTRUCTIVE_TOOLS.contains ctx.toolName then
    match ctx.intentId with
    | none =>
      ({ allowed := false,
         reason := some (destructiveNoIntentReason ctx.toolName) }, st)
    | some iid =>
      match getIntent env.catalog iid with
      | none => ({ allowed := false, reason := some (intentNotFoundReason iid) }, st)
      | some intent =>
        if intent.status ≠ .IN_PROGRESS then
          ({ allowed := false,
             reason := some (destructiveStatusReason iid intent.status) }, st)
        else if (env.hitl ctx.toolName ctx.filePath).approved then
          ({ allowed := true, metadata := some .destructive }, st)
        else
          ({ allowed := false, reason := (env.hitl ctx.toolName ctx.filePath).reason }, st)
  else
    match ctx.intentId with
    | none =>
      if WRITE_TOOLS.contains ctx.toolName then
        ({ allowed := false, reason := some (noActiveIntentReason ctx.toolName) }, st)
      else
        ({ allowed := true, metadata := some .unclassified }, st)
    | some iid =>
      if !WRITE_TOOLS.contains ctx.toolName then
        ({ allowed := true, metadata := some .unclassified }, st)
      else
        match getIntent env.catalog iid with
        | none =>
          ({ allowed := false, reason := some (intentNotFoundReason iid) }, st)
        | some intent =>
          if intent.status ≠ .IN_PROGRESS then
            ({ allowed := false,
               reason := some (statusGateReason iid intent.status) }, st)
          else
            match ctx.filePath with
            | some fp =>
              if isIgnored env.ignoreToks (relPathOf env.workspacePath fp) then
                ({ allowed := true, metadata := some .intentIgnored }, st)
              else if !isInScope (relPathOf env.workspacePath fp) intent.owned_scope then
                ({ allowed := false,
                   reason := some (scopeViolationReason
                     (relPathOf env.workspacePath fp) iid intent.owned_scope) },
                 st)
              else
                hitlAndHashStep env st ctx iid
            | none => hitlAndHashStep env st ctx iid

-- ---------------------------------------------------------------------------
-- Trace ledger (src/core/hooks/TraceLogger.ts, Agent Trace format)
-- ---------------------------------------------------------------------------

/-- Scope validation verdict of a trace entry (`"PASS" | "FAIL" | "EXEMPT"`). -/
inductive ScopeValidation
  | PASS
  | FAIL
  | EXEMPT
deriving DecidableEq, Repr

/-- File block of an internal trace entry (`TraceEntry.file`). -/
structure TraceFileInfo where
  relative_path : Str
  pre_hash : Option Str
  post_hash : Option Str
deriving DecidableEq, Repr

/-- Internal trace entry of the hook pipeline (`TraceEntry` in `types.ts`). -/
structure TraceEntry where
  id : Str
  timestamp : Str
  intent_id : Str
  session_id : Str
  tool_name : String
  mutation_class : MutationClass
  file : Option TraceFileInfo
  scope_validation : ScopeValidation
  success : Bool
  error : Option Str := none
deriving DecidableEq, Repr

/-- Contributor kind of a ledger conversation (`"AI" | "Human"`). -/
inductive EntityType
  | AI
  | Human
deriving DecidableEq, Repr

/-- Relation kinds of a ledger conversation
(`"specification" | "intent" | "parent_trace"`). -/
inductive RelType
  | specification
  | intent
  | parent_trace
deriving DecidableEq, Repr

/-- One `related` entry of a ledger conversation (`AgentTraceRelation`). -/
structure AgentTraceRelation where
  type : RelType
  value : Str
deriving DecidableEq, Repr

/-- One `ranges` entry of a ledger conversation (`AgentTraceRange`). -/
structure AgentTraceRange where
  start_line : Nat
  end_line : Nat
  content_hash : Str
deriving DecidableEq, Repr

/-- One conversation of a ledger file block (`AgentTraceConversation`). -/
structure AgentTraceConversation where
  url : Str
  contributor_entity : EntityType
  contributor_model : Str
  ranges : List AgentTraceRange
  related : List AgentTraceRelation
deriving DecidableEq, Repr

/-- One file block of a ledger record (`AgentTraceFile`). -/
structure AgentTraceFile where
  relative_path : Str
  conversations : List AgentTraceConversation
deriving DecidableEq, Repr

/-- One ledger record in the external Agent Trace format
(`AgentTraceEntry`). -/
structure AgentTraceEntry where
  id : Str
  timestamp : Str
  vcs_revision_id : Option Str
  files : List AgentTraceFile
deriving DecidableEq, Repr

/-- Options of `TraceLogger.log` / `toAgentTraceEntry`. -/
structure LogOpts where
  modelIdentifier : Option Str := none
  startLine : Option Nat := none
  endLine : Option Nat := none
  relatedSpecs : Option (List Str) := none
deriving DecidableEq, Repr

/-- Conversion of an internal trace entry to the Agent Trace format
(`TraceLogger.toAgentTraceEntry`): build the `related` list headed by the
intent relation, fetch the VCS revision (`gitSha`, an input here), and
emit one file block with one conversation whose single range carries
`post_hash ?? pre_hash ?? ""` — no range at all when that is empty, and no
file block at all when the entry has no file. -/
def toAgentTraceEntry (entry : TraceEntry) (opts : LogOpts)
    (gitSha : Option Str) : AgentTraceEntry :=
  let related : List AgentTraceRelation :=
    ⟨.intent, entry.intent_id⟩ ::
      (opts.relatedSpecs.getD []).map (fun s => ⟨.specification, s⟩)
  let files : List AgentTraceFile :=
    match entry.file with
    | none => []
    | some fi =>
      let contentHash := (fi.post_hash.or fi.pre_hash).getD []
      let ranges : List AgentTraceRange :=
        if contentHash ≠ [] then
          [⟨opts.startLine.getD 1, opts.endLine.getD 1, contentHash⟩]
        else []
      [⟨fi.relative_path,
        [⟨entry.session_id, .AI, (opts.modelIdentifier.getD ("unknown".data)),
          ranges, related⟩]⟩]
  ⟨entry.id, entry.timestamp, gitSha, files⟩

/-- The record one `TraceLogger.log` call serializes and appends to the
ledger (the append-with-one-retry I/O is fail-open and not modelled). -/
def traceLog (entry : TraceEntry) (opts : LogOpts)
    (gitSha : Option Str) : AgentTraceEntry :=
  toAgentTraceEntry entry opts gitSha

-- ---------------------------------------------------------------------------
-- Context builder (src/core/hooks/IntentContextLoader.ts)
-- ---------------------------------------------------------------------------

/-- Spatial map entry handed to the context (`SpatialEntry` in `types.ts`). -/
structure SpatialEntry where
  filePath : Str
  intentId : Str
  lastHash : Str
  lastModified : Str
deriving DecidableEq, Repr

/-- Curated context of one intent (`IntentContext` in `types.ts`).
`specExcerpts` is `none` when the field is `undefined`. -/
structure IntentContext where
  intent : IntentSpec
  relatedFiles : List SpatialEntry
  recentTraceEntries : List TraceEntry
  constraints : List Str
  acceptanceCriteria : List Str
  specExcerpts : Option (List Str)
deriving DecidableEq, Repr

/-- Escaping of one character under `JSON.stringify`. -/
def jsonEscChar (c : Char) : Str :=
  if c = '"' then ('\\' :: '"' :: [])
  else if c = '\\' then ('\\' :: '\\' :: [])
  else if c = '\n' then ('\\' :: 'n' :: [])
  else if c = '\r' then ('\\' :: 'r' :: [])
  else if c = '\t' then ('\\' :: 't' :: [])
  else [c]

/-- String-body escaping under `JSON.stringify`. -/
def jsonEsc : Str → Str
  | [] => []
  | c :: rest => jsonEscChar c ++ jsonEsc rest

/-- A JSON string literal. -/
def jsonStrLit (s : Str) : Str :=
  '"' :: (jsonEsc s ++ ('"' :: []))

/-- Comma join of already-serialized fragments. -/
def joinComma : List Str → Str
  | [] => []
  | [x] => x
  | x :: rest => x ++ ',' :: joinComma rest

/-- A JSON array from already-serialized element fragments. -/
def jsonArr (items : List Str) : Str :=
  '[' :: (joinComma items ++ (']' :: []))

/-- A JSON array of strings. -/
def jsonStrArr (ss : List Str) : Str :=
  jsonArr (ss.map jsonStrLit)

/-- A JSON number from a natural. -/
def jsonNat (n : Nat) : Str :=
  (Nat.repr n).data

/-- A JSON string-or-null value. -/
def jsonOptStr : Option Str → Str
  | none => "null".data
  | some s => jsonStrLit s

/-- Rendering of a mutation class name. -/
def mutationClassStr : MutationClass → Str
  | .AST_REFACTOR => "AST_REFACTOR".data
  | .INTENT_EVOLUTION => "INTENT_EVOLUTION".data
  | .BUG_FIX => "BUG_FIX".data
  | .DOCUMENTATION => "DOCUMENTATION".data
  | .CONFIGURATION => "CONFIGURATION".data
  | .FILE_CREATION => "FILE_CREATION".data
  | .FILE_DELETION => "FILE_DELETION".data

/-- Rendering of a scope-validation verdict. -/
def scopeValidationStr : ScopeValidation → Str
  | .PASS => "PASS".data
  | .FAIL => "FAIL".data
  | .EXEMPT => "EXEMPT".data

/-- `JSON.stringify` of an intent as parsed from the canonical catalog
schema (fields in the declared schema order, optional fields omitted when
absent, as `JSON.stringify` omits `undefined`). -/
def jsonIntent (i : IntentSpec) : Str :=
  "\x7b\"id\":".data ++ jsonStrLit i.id ++
    ",\"name\":".data ++ jsonStrLit i.name ++
    ",\"status\":".data ++ jsonStrLit (statusStr i.status) ++
    (match i.version with
     | none => []
     | some v => ",\"version\":".data ++ jsonNat v) ++
    ",\"owned_scope\":".data ++ jsonStrArr i.owned_scope ++
    ",\"constraints\":".data ++ jsonStrArr i.constraints ++
    ",\"acceptance_criteria\":".data ++ jsonStrArr i.acceptance_criteria ++
    (match i.related_specs with
     | none => []
     | some refs =>
       ",\"related_specs\":".data ++
         jsonArr (refs.map (fun r =>
           "\x7b\"type\":".data ++
             jsonStrLit (match r.type with
               | .speckit => "speckit".data
               | .github_issue => "github_issue".data
               | .github_pr => "github_pr".data
               | .constitution => "constitution".data
               | .external => "external".data) ++
             ",\"ref\":".data ++ jsonStrLit r.ref ++ "\x7d".data))) ++
    (match i.parent_intent with
     | none => []
     | some p => ",\"parent_intent\":".data ++ jsonStrLit p) ++
    (match i.tags with
     | none => []
     | some ts => ",\"tags\":".data ++ jsonStrArr ts) ++
    ",\"created_at\":".data ++ jsonStrLit i.created_at ++
    ",\"updated_at\":".data ++ jsonStrLit i.updated_at ++ "\x7d".data

/-- `JSON.stringify` of a spatial entry. -/
def jsonSpatialEntry (e : SpatialEntry) : Str :=
  "\x7b\"filePath\":".data ++ jsonStrLit e.filePath ++
    ",\"intentId\":".data ++ jsonStrLit e.intentId ++
    ",\"lastHash\":".data ++ jsonStrLit e.lastHash ++
    ",\"lastModified\":".data ++ jsonStrLit e.lastModified ++ "\x7d".data

/-- `JSON.stringify` of an internal trace entry. -/
def jsonTraceEntry (e : TraceEntry) : Str :=
  "\x7b\"id\":".data ++ jsonStrLit e.id ++
    ",\"timestamp\":".data ++ jsonStrLit e.timestamp ++
    ",\"intent_id\":".data ++ jsonStrLit e.intent_id ++
    ",\"session_id\":".data ++ jsonStrLit e.session_id ++
    ",\"tool_name\":".data ++ jsonStrLit e.tool_name.data ++
    ",\"mutation_class\":".data ++ jsonStrLit (mutationClassStr e.mutation_class) ++
    ",\"file\":".data ++
    (match e.file with
     | none => "null".data
     | some fi =>
       "\x7b\"relative_path\":".data ++ jsonStrLit fi.relative_path ++
         ",\"pre_hash\":".data ++ jsonOptStr fi.pre_hash ++
         ",\"post_hash\":".data ++ jsonOptStr fi.post_hash ++ "\x7d".data) ++
    ",\"scope_validation\":".data ++ jsonStrLit (scopeValidationStr e.scope_validation) ++
    ",\"success\":".data ++ (if e.success then "true".data else "false".data) ++
    (match e.error with
     | none => []
     | some err => ",\"error\":".data ++ jsonStrLit err) ++ "\x7d".data

/-- `JSON.stringify(context)` as used by `truncateContext` (fields in the
construction order of `buildIntentContext`; `specExcerpts` omitted when
`undefined`). -/
def jsonCtx (ctx : IntentContext) : Str :=
  "\x7b\"intent\":".data ++ jsonIntent ctx.intent ++
    ",\"relatedFiles\":".data ++ jsonArr (ctx.relatedFiles.map jsonSpatialEntry) ++
    ",\"recentTraceEntries\":".data ++
    jsonArr (ctx.recentTraceEntries.map jsonTraceEntry) ++
    ",\"constraints\":".data ++ jsonStrArr ctx.constraints ++
    ",\"acceptanceCriteria\":".data ++ jsonStrArr ctx.acceptanceCriteria ++
    (match ctx.specExcerpts with
     | none => []
     | some ex => ",\"specExcerpts\":".data ++ jsonStrArr ex) ++ "\x7d".data

/-- Serialized byte budget of the curated context (`MAX_CONTEXT_BYTES`). -/
def MAX_CONTEXT_BYTES : Nat := 16384

/-- Per-excerpt cap of resolved specs (`MAX_SPEC_EXCERPT_BYTES`). -/
def MAX_SPEC_EXCERPT_BYTES : Nat := 2048

/-- Cap of recent trace entries taken into the context
(`MAX_RECENT_TRACES`). -/
def MAX_RECENT_TRACES : Nat := 20

/-- Serialized length of a context, the truncation measure. -/
def ctxLen (ctx : IntentContext) : Nat :=
  (jsonCtx ctx).length

/-- Tier-1 loop body of `truncateContext` with the drop count bounded by
`fuel`; the wrapper passes the length of the droppable list, so the bound
is never the reason the loop stops. -/
def dropTracesGo : Nat → IntentContext → IntentContext
  | 0, ctx => ctx
  | fuel + 1, ctx =>
    if ctxLen ctx ≤ MAX_CONTEXT_BYTES then ctx
    else
      match ctx.recentTraceEntries with
      | [] => ctx
      | _ :: rest => dropTracesGo fuel { ctx with recentTraceEntries := rest }

/-- Tier 1 of `truncateContext`: drop trace entries, oldest first, while the
serialization exceeds the budget. -/
def dropTraces (ctx : IntentContext) : IntentContext :=
  dropTracesGo ctx.recentTraceEntries.length ctx

/-- Tier-2 loop body of `truncateContext`, fuel-bounded as in
`dropTracesGo`. -/
def dropExcerptsGo : Nat → IntentContext → IntentContext
  | 0, ctx => ctx
  | fuel + 1, ctx =>
    if ctxLen ctx ≤ MAX_CONTEXT_BYTES then ctx
    else
      match ctx.specExcerpts with
      | some (_ :: rest) => dropExcerptsGo fuel { ctx with specExcerpts := some rest }
      | _ => ctx

/-- Tier 2 of `truncateContext`: drop spec excerpts one at a time while the
serialization exceeds the budget. -/
def dropExcerpts (ctx : IntentContext) : IntentContext :=
  dropExcerptsGo (ctx.specExcerpts.getD []).length ctx

/-- Tier-3 loop body of `truncateContext`, fuel-bounded as in
`dropTracesGo`. -/
def dropRelatedFilesGo : Nat → IntentContext → IntentContext
  | 0, ctx => ctx
  | fuel + 1, ctx =>
    if ctxLen ctx ≤ MAX_CONTEXT_BYTES then ctx
    else
      match ctx.relatedFiles with
      | [] => ctx
      | _ :: rest => dropRelatedFilesGo fuel { ctx with relatedFiles := rest }

/-- Tier 3 of `truncateContext`: drop related files, oldest first, while the
serialization exceeds the budget. -/
def dropRelatedFiles (ctx : IntentContext) : IntentContext :=
  dropRelatedFilesGo ctx.relatedFiles.length ctx

/-- Tier 2 of `truncateContext` with its cleanup: when `specExcerpts` is
present, run the drop loop and clear the field if it drained to the empty
array (`if (context.specExcerpts.length === 0) ... = undefined`). -/
def tier2 (ctx : IntentContext) : IntentContext :=
  match ctx.specExcerpts with
  | none => ctx
  | some _ =>
    if (dropExcerpts ctx).specExcerpts = some [] then
      { dropExcerpts ctx with specExcerpts := none }
    else dropExcerpts ctx

/-- Budget truncation (`IntentContextLoader.truncateContext`): return
immediately when within budget, otherwise drop trace entries, then spec
excerpts (clearing the field when it drains to the empty array), then
related files. -/
def truncateContext (ctx : IntentContext) : IntentContext :=
  if ctxLen ctx ≤ MAX_CONTEXT_BYTES then ctx
  else dropRelatedFiles (tier2 (dropTraces ctx))

/-- Resolution of `related_specs` of type `speckit` or `constitution`
(`IntentContextLoader.resolveRelatedSpecs`): read each referenced file
(`readSpec` models the filesystem under the workspace root, `none` being a
read failure that is skipped silently), truncating each excerpt at
`MAX_SPEC_EXCERPT_BYTES` with a marker. -/
def resolveRelatedSpecs (readSpec : Str → Option Str) (intent : IntentSpec) :
    List Str :=
  match intent.related_specs with
  | none => []
  | some refs =>
    refs.filterMap (fun r =>
      if r.type = .speckit ∨ r.type = .constitution then
        (readSpec r.ref).map (fun content =>
          if content.length > MAX_SPEC_EXCERPT_BYTES then
            sliceTo MAX_SPEC_EXCERPT_BYTES content ++ "\n[...truncated]".data
          else content)
      else none)

/-- Extraction of the file reference of one spatial-map line, the model of
the regex match `^- \x60([^\x60]+)\x60`. -/
def parseEntryLine (l : Str) : Option Str :=
  match l with
  | '-' :: ' ' :: '`' :: rest =>
    let inner := rest.takeWhile (fun c => c ≠ '`')
    if inner ≠ [] ∧ inner.length < rest.length then some inner else none
  | _ => none

/-- Scan of the spatial map for one intent's section
(`IntentContextLoader.parseSpatialMap`): enter at a `## ` header containing
the id, stop at the next header, collect `- \x60path\x60` lines. -/
def parseSpatialGo (intentId : Str) : List Str → Bool → List Str
  | [], _ => []
  | l :: rest, inSection =>
    if startsWith ("## ".data) l && containsSub intentId l then
      parseSpatialGo intentId rest true
    else if inSection && startsWith ("## ".data) l then []
    else if inSection then
      match parseEntryLine l with
      | some p => p :: parseSpatialGo intentId rest true
      | none => parseSpatialGo intentId rest true
    else parseSpatialGo intentId rest false

/-- Loading of the spatial entries of one intent
(`IntentContextLoader.loadSpatialEntries`): a missing map yields none. -/
def loadSpatialEntries (mapContent : Option Str) (intentId : Str) :
    List SpatialEntry :=
  match mapContent with
  | none => []
  | some c =>
    (parseSpatialGo intentId (splitOnNl c) false).map
      (fun p => ⟨p, intentId, [], []⟩)

/-- Last `n` elements of a list in order, the model of `slice(-n)`. -/
def lastN (n : Nat) (l : List α) : List α :=
  l.drop (l.length - n)

/-- Construction of the curated context
(`IntentContextLoader.buildIntentContext`): `null` for an unknown intent;
otherwise assemble spatial entries, resolved spec excerpts (`undefined`
when empty), the last `MAX_RECENT_TRACES` matching trace entries, and
truncate to budget. -/
def buildIntentContext (catalog : List IntentSpec) (readSpec : Str → Option Str)
    (mapContent : Option Str) (traceEntries : List TraceEntry)
    (intentId : Str) : Option IntentContext :=
  match getIntent catalog intentId with
  | none => none
  | some intent =>
    let relatedFiles := loadSpatialEntries mapContent intentId
    let excerpts := resolveRelatedSpecs readSpec intent
    let recent := lastN MAX_RECENT_TRACES
      (traceEntries.filter (fun e => e.intent_id = intentId))
    some (truncateContext
      { intent := intent
        relatedFiles := relatedFiles
        recentTraceEntries := recent
        constraints := intent.constraints
        acceptanceCriteria := intent.acceptance_criteria
        specExcerpts := if excerpts ≠ [] then some excerpts else none })

-- ---------------------------------------------------------------------------
-- Spatial map writer (src/core/hooks/SpatialMapWriter.ts)
-- ---------------------------------------------------------------------------

/-- Header synthesized when `intent_map.md` is missing. -/
def defaultMapContent : Str :=
  "# Intent-Code Spatial Map\n\nThis file maps business intents to physical files and AST nodes.\n".data

/-- First index satisfying a predicate, the model of
`Array.prototype.findIndex` (with `none` for `-1`). -/
def findIdxOpt (p : α → Bool) : List α → Option Nat
  | [] => none
  | x :: xs => if p x then some 0 else (findIdxOpt p xs).map (· + 1)

/-- Duplicate scan of `addFileToIntent`: walk the lines keeping an
`inSection` flag; a `## ` header containing the id (re)enters the section,
any other header while in the section ends the scan, and a section line
containing `` `filePath` `` reports the file as already listed. -/
def dedupGo (intentId needle : Str) : List Str → Bool → Bool
  | [], _ => false
  | l :: rest, inSection =>
    if startsWith ("## ".data) l && containsSub intentId l then
      dedupGo intentId needle rest true
    else if inSection && startsWith ("## ".data) l then false
    else if inSection && containsSub needle l then true
    else dedupGo intentId needle rest inSection

/-- Splice insertion, the model of `lines.splice(i, 0, ...new)`. -/
def spliceAt (xs : List α) (i : Nat) (new : List α) : List α :=
  xs.take i ++ new ++ xs.drop i

/-- First index at or after `i` whose line starts a `## ` section, else the
line count — the forward walks of `addFileToIntent`. -/
def scanEnd (lines : List Str) (i : Nat) : Nat :=
  match findIdxOpt (fun l => startsWith ("## ".data) l) (lines.drop i) with
  | some k => i + k
  | none => lines.length

/-- First index at or after `i` whose line starts `## ` or `### `, else the
line count — the forward walk of the evolution-log insertion. -/
def scanEndHdr (lines : List Str) (i : Nat) : Nat :=
  match findIdxOpt
      (fun l => startsWith ("## ".data) l || startsWith ("### ".data) l)
      (lines.drop i) with
  | some k => i + k
  | none => lines.length

/-- Blank-line test (`line.trim() === ""`). -/
def isBlankLine (l : Str) : Bool :=
  trimWs l = ([] : Str)

/-- Backward walk over trailing blank lines, the model of
`while (j > low && lines[j].trim() === "") j--`. -/
def backSkip (lines : List Str) (low : Nat) : Nat → Nat
  | 0 => 0
  | j + 1 =>
    if low < j + 1 ∧ isBlankLine (lines.getD (j + 1) []) then backSkip lines low j
    else j + 1

/-- File-entry insertion of `addFileToIntent`: append a fresh section before
any trailing rule or footer when the section is missing, otherwise insert
the entry after the last non-blank line of the section. -/
def insertFileEntry (lines : List Str) (intentId label entry : Str) :
    List Str :=
  match findIdxOpt (fun l => startsWith ("## ".data ++ intentId) l) lines with
  | none =>
    let newSection : List Str :=
      [('\n' :: "## ".data) ++ label ++ ('\n' :: []),
       "### Files\n".data, entry, []]
    match findIdxOpt
        (fun l => startsWith ("---".data) l || startsWith ("_This file".data) l)
        lines with
    | some trailingIdx => spliceAt lines trailingIdx newSection
    | none => lines ++ newSection
  | some sectionIdx =>
    let insertIdx := scanEnd lines (sectionIdx + 1)
    let lastContentIdx := backSkip lines sectionIdx (insertIdx - 1)
    spliceAt lines (lastContentIdx + 1) [entry]

/-- Evolution-log insertion of `addFileToIntent` for `INTENT_EVOLUTION`
mutations: locate the section (`## <intentId>` by prefix), find an
existing `### Evolution Log` subsection before the next header, create it
with the dated entry when missing, else append the dated entry after the
subsection's last non-blank line. -/
def evolutionStep (lines : List Str) (intentId filePath today : Str) :
    List Str :=
  let evoEntry :=
    "- _[EVOLUTION ".data ++ today ++ "]_ `".data ++ filePath ++
      "` — new behavior added".data
  match findIdxOpt (fun l => startsWith ("## ".data ++ intentId) l) lines with
  | none => lines
  | some sectionIdx =>
    let seg := (lines.drop (sectionIdx + 1)).takeWhile
      (fun l => !startsWith ("## ".data) l)
    match findIdxOpt (fun l => containsSub ("### Evolution Log".data) l) seg with
    | none =>
      let insertIdx := scanEnd lines (sectionIdx + 1)
      let lastContentIdx := backSkip lines sectionIdx (insertIdx - 1)
      spliceAt lines (lastContentIdx + 1)
        [[], "### Evolution Log".data, [], evoEntry]
    | some k =>
      let evolutionIdx := sectionIdx + 1 + k
      let insertAfter := scanEndHdr lines (evolutionIdx + 1)
      let lastEvolutionLine := backSkip lines evolutionIdx (insertAfter - 1)
      spliceAt lines (lastEvolutionLine + 1) [evoEntry]

/-- The spatial-map update (`SpatialMapWriter.addFileToIntent`) as a pure
function from the current map content (`none` when the file is missing) to
the content written back: synthesize the header when missing, skip the
file entry when the duplicate scan finds it, insert it otherwise, then
append the evolution marker on `INTENT_EVOLUTION`.  `today` is the date
part of the clock's ISO timestamp. -/
def addFileToIntent (intentId filePath : Str) (intentName : Option Str)
    (mutationClass : Option MutationClass) (today : Str)
    (mapContent : Option Str) : Str :=
  let content := mapContent.getD defaultMapContent
  let needle := '`' :: (filePath ++ ('`' :: []))
  let entry := '-' :: ' ' :: needle
  let lines := splitOnNl content
  let label :=
    match intentName with
    | some n => intentId ++ ": ".data ++ n
    | none => intentId
  let alreadyListed := dedupGo intentId needle lines false
  let lines1 :=
    if alreadyListed then lines else insertFileEntry lines intentId label entry
  let lines2 :=
    if mutationClass = some .INTENT_EVOLUTION then
      evolutionStep lines1 intentId filePath today
    else lines1
  joinNl lines2


/-- The section label of `addFileToIntent`:
`intentName ? \x60${intentId}: ${intentName}\x60 : intentId`. -/
def labelOf (intentId : Str) : Option Str → Str
  | some n => intentId ++ ": ".data ++ n
  | none => intentId

/-- First line of the synthesized default map content. -/
def mapLine0 : Str := "# Intent-Code Spatial Map".data

/-- Third line of the synthesized default map content. -/
def mapLine2 : Str :=
  "This file maps business intents to physical files and AST nodes.".data

-- ---------------------------------------------------------------------------
-- Concrete fixtures for witnesses and counterexamples
-- ---------------------------------------------------------------------------

/-- A stand-in digest function; no property proved here depends on the
concrete digest. -/
def sampleDigest : Str → Str :=
  fun c => sliceTo 64 c ++ ('0' :: [])

/-- A filesystem on which every path is absent. -/
def absentFs : Str → FsResult :=
  fun _ => .enoent

/-- A filesystem on which every path reads the one-character content `v`. -/
def okFs : Str → FsResult :=
  fun _ => .ok ('v' :: [])

/-- A filesystem holding one file at `/ws/src/core/hooks/X.ts`. -/
def fsWithX (content : Str) : Str → FsResult :=
  fun p => if p = "/ws/src/core/hooks/X.ts".data then .ok content else .enoent

/-- A HITL capability that rejects every request. -/
def rejectHitl : String → Option Str → HitlDecision :=
  fun _ _ => { approved := false, reason := some ("Human rejected".data) }

/-- A catalog intent in progress owning `src/core/hooks/**`. -/
def sampleIntent : IntentSpec :=
  { id := "INT-001".data
    name := "Hook System".data
    status := .IN_PROGRESS
    owned_scope := ["src/core/hooks/**".data]
    constraints := []
    acceptance_criteria := []
    created_at := "2026-02-18T10:00:00Z".data
    updated_at := "2026-02-18T14:00:00Z".data }

/-- The same intent in the COMPLETE state. -/
def completeIntent : IntentSpec :=
  { sampleIntent with status := .COMPLETE }

/-- A concrete engine environment: one in-progress intent, `dist/**`
ignored, every file absent, rejecting HITL. -/
def sampleEnv : Env :=
  { workspacePath := "/ws".data
    catalog := [sampleIntent]
    ignoreToks := loadIgnore (some ("dist/**\n".data))
    fs := absentFs
    digest := sampleDigest
    hitl := rejectHitl }

/-- The sample environment with `X.ts` present holding `v2`. -/
def envWithX : Env :=
  { sampleEnv with fs := fsWithX ('v' :: '2' :: []) }

/-- An engine state whose cache already holds a hash for `X.ts`. -/
def staleState : EngineState :=
  { fileHashCache := [("src/core/hooks/X.ts".data, "sha256:cachedhash0".data)] }

/-- A 20000-character constraint string. -/
def hugeStr : Str :=
  List.replicate 20000 'a'

/-- The sample intent carrying an oversized constraint. -/
def hugeIntent : IntentSpec :=
  { sampleIntent with constraints := [hugeStr] }

/-- The context assembled by `buildIntentContext` for `hugeIntent` with an
empty map, no readable specs and no trace entries. -/
def hugeCtx0 : IntentContext :=
  { intent := hugeIntent
    relatedFiles := []
    recentTraceEntries := []
    constraints := hugeIntent.constraints
    acceptanceCriteria := hugeIntent.acceptance_criteria
    specExcerpts := none }

/-- A concrete internal trace entry with a file block and a post hash. -/
def sampleEntry : TraceEntry :=
  { id := "id1".data
    timestamp := "t".data
    intent_id := "INT-001".data
    session_id := "s".data
    tool_name := "write_to_file"
    mutation_class := .INTENT_EVOLUTION
    file := some
      { relative_path := "src/a.ts".data
        pre_hash := none
        post_hash := some ("sha256:abc".data) }
    scope_validation := .PASS
    success := true }

/-- The transition pairs enumerated by the specification's lifecycle. -/
def allowedPairs : List (IntentStatus × IntentStatus) :=
  [(.PENDING, .IN_PROGRESS), (.PENDING, .ARCHIVED),
   (.IN_PROGRESS, .COMPLETE), (.IN_PROGRESS, .BLOCKED),
   (.IN_PROGRESS, .ARCHIVED),
   (.BLOCKED, .IN_PROGRESS), (.BLOCKED, .ARCHIVED),
   (.COMPLETE, .ARCHIVED)]

-- ===========================================================================
-- Theorems
-- ===========================================================================

theorem infix_app_right {s a : Str} (rest : Str) (h : s <:+: a) :
    s <:+: a ++ rest := by
  obtain ⟨x, y, rfl⟩ := h
  exact ⟨x, y ++ rest, by simp⟩

theorem infix_app_left {s b : Str} (rest : Str) (h : s <:+: b) :
    s <:+: rest ++ b := by
  obtain ⟨x, y, rfl⟩ := h
  exact ⟨rest ++ x, y, by simp⟩

theorem write_mem {t : String} (h : WRITE_TOOLS.contains t = true) :
    t ∈ WRITE_TOOLS := by
  simpa using h

theorem write_not_exempt {t : String} (h : WRITE_TOOLS.contains t = true) :
    EXEMPT_TOOLS.contains t = false := by
  have hm := write_mem h
  fin_cases hm <;> decide

theorem write_not_destructive {t : String} (h : WRITE_TOOLS.contains t = true) :
    DESTRUCTIVE_TOOLS.contains t = false := by
  have hm := write_mem h
  fin_cases hm <;> decide

/-- C1: for every tool-invocation context whose toolName is in the WRITE set
and whose intentId is null, preToolUse returns allowed == false with a
reason that mentions the intent-selection operation
(`select_active_intent`) and the catalog location
(`.orchestration/active_intents.yaml`). -/
theorem C1_write_without_intent_denied (env : Env) (st : EngineState)
    (ctx : PreToolContext) (hW : WRITE_TOOLS.contains ctx.toolName = true)
    (hI : ctx.intentId = none) :
    (preToolUse env st ctx).1.allowed = false
    ∧ ∃ r, (preToolUse env st ctx).1.reason = some r
        ∧ "select_active_intent".data <:+: r
        ∧ ".orchestration/active_intents.yaml".data <:+: r := by
  have hE := write_not_exempt hW
  have hD := write_not_destructive hW
  have hres : preToolUse env st ctx =
      ({ allowed := false, reason := some (noActiveIntentReason ctx.toolName) }, st) := by
    unfold preToolUse
    rw [hE, hD, hI, hW]
    simp
  refine ⟨by rw [hres], noActiveIntentReason ctx.toolName, by rw [hres], ?_, ?_⟩
  · unfold noActiveIntentReason
    exact infix_app_right _ (infix_app_right _ (by decide))
  · unfold noActiveIntentReason
    exact infix_app_left _ (by decide)

/-- Witness for C1 at the concrete environment and `write_to_file`. -/
theorem C1_write_without_intent_denied_witness :
    WRITE_TOOLS.contains "write_to_file" = true
    ∧ ((preToolUse sampleEnv {} { toolName := "write_to_file" }).1.allowed = false
      ∧ ∃ r, (preToolUse sampleEnv {} { toolName := "write_to_file" }).1.reason = some r
          ∧ "select_active_intent".data <:+: r
          ∧ ".orchestration/active_intents.yaml".data <:+: r) :=
  ⟨by decide, C1_write_without_intent_denied sampleEnv {} _ (by decide) rfl⟩

theorem preHashStep_denied_state (env : Env) (st : EngineState)
    (ctx : PreToolContext) (i : Str) :
    (preHashStep env st ctx i).1.allowed = false →
    (preHashStep env st ctx i).2 = st := by
  unfold preHashStep
  repeat' split
  all_goals intro h
  all_goals first
    | rfl
    | simp at h

theorem hitlAndHashStep_denied_state (env : Env) (st : EngineState)
    (ctx : PreToolContext) (i : Str) :
    (hitlAndHashStep env st ctx i).1.allowed = false →
    (hitlAndHashStep env st ctx i).2 = st := by
  unfold hitlAndHashStep
  repeat' split
  all_goals intro h
  all_goals first
    | rfl
    | simp at h
    | exact preHashStep_denied_state env st ctx i h

/-- C10: whenever preToolUse returns allowed == false, the engine instance's
per-session in-memory state is unchanged — the hash cache, the active
intent, and the engine mode keep their values (a denial has no side effect
on the engine instance itself). -/
theorem C10_denial_no_state_change (env : Env) (st : EngineState)
    (ctx : PreToolContext) :
    (preToolUse env st ctx).1.allowed = false →
    (preToolUse env st ctx).2 = st := by
  unfold preToolUse
  repeat' split
  all_goals intro h
  all_goals first
    | rfl
    | simp at h
    | exact hitlAndHashStep_denied_state env st ctx _ h

/-- Witness for C10 at a concrete denied invocation. -/
theorem C10_denial_no_state_change_witness :
    (preToolUse sampleEnv {} { toolName := "write_to_file" }).1.allowed = false
    ∧ (preToolUse sampleEnv {} { toolName := "write_to_file" }).2
        = ({} : EngineState) :=
  ⟨by decide,
   C10_denial_no_state_change sampleEnv {} { toolName := "write_to_file" }
     (by decide)⟩

/-- Counterexample to C8: `verify_acceptance_criteria` is not a member of
the EXEMPT set, and a concrete preToolUse call with that toolName is
allowed with unclassified — not exempt — metadata. -/
theorem C8_counterexample :
    EXEMPT_TOOLS.contains "verify_acceptance_criteria" = false
    ∧ (preToolUse sampleEnv {} { toolName := "verify_acceptance_criteria" }).1.metadata
        = some MetaTag.unclassified := by
  exact ⟨by decide, by decide⟩

/-- C8 as amended: `verify_acceptance_criteria` is not in the EXEMPT set;
every preToolUse call with that toolName is allowed with unclassified
metadata — it bypasses the intent, scope, HITL and hash gates as an
unclassified tool, not as an exempt one — and leaves the engine state
unchanged. -/
theorem C8_verify_acceptance_unclassified (env : Env) (st : EngineState)
    (ctx : PreToolContext) (h : ctx.toolName = "verify_acceptance_criteria") :
    preToolUse env st ctx
      = ({ allowed := true, metadata := some .unclassified }, st) := by
  have hE : EXEMPT_TOOLS.contains "verify_acceptance_criteria" = false := by decide
  have hD : DESTRUCTIVE_TOOLS.contains "verify_acceptance_criteria" = false := by decide
  have hW : WRITE_TOOLS.contains "verify_acceptance_criteria" = false := by decide
  unfold preToolUse
  rw [h, hE, hD]
  cases hI : ctx.intentId <;>
    simp [hW, show ("verify_acceptance_criteria" ∉ WRITE_TOOLS) from by decide]

/-- Witness for C8's amended theorem at a concrete call. -/
theorem C8_verify_acceptance_unclassified_witness :
    preToolUse sampleEnv {} { toolName := "verify_acceptance_criteria" }
      = ({ allowed := true, metadata := some .unclassified }, ({} : EngineState)) :=
  C8_verify_acceptance_unclassified sampleEnv {} _ rfl

/-- C5: computeFileHash returns null if and only if the path does not exist
or another I/O error occurs (all of which are logged and yield null, so
the function never throws); on a readable file it returns the content
hash. -/
theorem C5_computeFileHash_total (fs : Str → FsResult) (digest : Str → Str)
    (p : Str) :
    (computeFileHash fs digest p = none ↔ fs p = .enoent ∨ fs p = .ioError)
    ∧ (∀ c, fs p = .ok c →
        computeFileHash fs digest p = some (computeContentHash digest c)) := by
  cases h : fs p <;> simp [computeFileHash, h]

/-- Witness for C5 on an absent path and on a readable file. -/
theorem C5_computeFileHash_total_witness :
    computeFileHash absentFs sampleDigest ("a.ts".data) = none
    ∧ computeFileHash okFs sampleDigest ("a.ts".data)
        = some (computeContentHash sampleDigest ('v' :: [])) :=
  ⟨(C5_computeFileHash_total absentFs sampleDigest ("a.ts".data)).1.mpr (Or.inl rfl),
   (C5_computeFileHash_total okFs sampleDigest ("a.ts".data)).2 ('v' :: []) rfl⟩

theorem validateTransition_iff (s n : IntentStatus) :
    validateTransition s n = true ↔ (s, n) ∈ allowedPairs := by
  cases s <;> cases n <;> decide

/-- C4: transitionIntent(id, newStatus) succeeds exactly when the pair
(currentStatus, newStatus) is among PENDING→IN_PROGRESS, PENDING→ARCHIVED,
IN_PROGRESS→COMPLETE, IN_PROGRESS→BLOCKED, IN_PROGRESS→ARCHIVED,
BLOCKED→IN_PROGRESS, BLOCKED→ARCHIVED, COMPLETE→ARCHIVED; every other
pair — including every transition out of ARCHIVED — fails with the
illegal-transition error, an `Except.error` thrown before the catalog
file write, so the catalog is not modified. -/
theorem C4_lifecycle_closure (cat : List IntentSpec) (id : Str)
    (new : IntentStatus) (now : Str) (intent : IntentSpec)
    (h : getIntent cat id = some intent) :
    ((∃ cat', transitionIntent cat id new now = .ok cat')
      ↔ (intent.status, new) ∈ allowedPairs)
    ∧ ((intent.status, new) ∉ allowedPairs →
        transitionIntent cat id new now = .error illegalTransitionMsg) := by
  induction cat with
  | nil => simp [getIntent] at h
  | cons i rest ih =>
    by_cases hid : i.id = id
    · have hi : i = intent := by
        simp [getIntent, List.find?_cons, hid] at h
        exact h
      subst hi
      unfold transitionIntent
      by_cases hv : validateTransition i.status new = true
      · simp [hid, hv]
        exact (validateTransition_iff _ _).mp hv
      · simp [hid, hv]
        intro hm
        exact hv ((validateTransition_iff _ _).mpr hm)
    · have h' : getIntent rest id = some intent := by
        simpa [getIntent, List.find?_cons, hid] using h
      have ihr := ih h'
      unfold transitionIntent
      cases hr : transitionIntent rest id new now with
      | ok c =>
        simp [hid, hr, Except.map]
        simp [hr] at ihr
        exact ihr
      | error e =>
        simp [hid, hr, Except.map]
        simp [hr] at ihr
        exact ihr

/-- Witness for C4: a COMPLETE intent may not return to IN_PROGRESS. -/
theorem C4_lifecycle_closure_witness :
    getIntent [completeIntent] ("INT-001".data) = some completeIntent
    ∧ transitionIntent [completeIntent] ("INT-001".data) .IN_PROGRESS
        ("2026-10-12T00:00:00Z".data) = .error illegalTransitionMsg :=
  ⟨by decide,
   (C4_lifecycle_closure [completeIntent] ("INT-001".data) .IN_PROGRESS
     ("2026-10-12T00:00:00Z".data) completeIntent (by decide)).2 (by decide)⟩

/-- C6: every ledger record produced by TraceLogger.log from an internal
TraceEntry satisfies: every related list it carries contains
{type: intent, value: intent_id}; when the entry's file is null the
record's files array is empty; and when the entry has a file, every
emitted range's content_hash equals post_hash if post_hash is non-null and
pre_hash otherwise. -/
theorem C6_ledger_record_invariants (entry : TraceEntry) (opts : LogOpts)
    (gitSha : Option Str) :
    (∀ f ∈ (traceLog entry opts gitSha).files, ∀ conv ∈ f.conversations,
        (⟨RelType.intent, entry.intent_id⟩ : AgentTraceRelation) ∈ conv.related)
    ∧ (entry.file = none → (traceLog entry opts gitSha).files = [])
    ∧ (∀ fi, entry.file = some fi →
        ∀ f ∈ (traceLog entry opts gitSha).files, ∀ conv ∈ f.conversations,
          ∀ rg ∈ conv.ranges,
            some rg.content_hash =
              if fi.post_hash.isSome then fi.post_hash else fi.pre_hash) := by
  cases hf : entry.file with
  | none => simp [traceLog, toAgentTraceEntry, hf]
  | some fi =>
    refine ⟨?_, by simp [hf], ?_⟩
    · intro f hmem conv hconv
      simp [traceLog, toAgentTraceEntry, hf] at hmem
      rcases hmem with ⟨rfl, -⟩ <;>
        simp_all [traceLog, toAgentTraceEntry, hf]
    · intro fi' hfi f hmem conv hconv rg hrg
      injection hfi with hfi
      subst hfi
      simp [traceLog, toAgentTraceEntry, hf] at hmem
      cases hp : fi.post_hash with
      | some ph =>
        simp_all [traceLog, toAgentTraceEntry, hf, hp, Option.or]
      | none =>
        cases hq : fi.pre_hash with
        | some qh => simp_all [traceLog, toAgentTraceEntry, hf, hp, hq, Option.or]
        | none => simp_all [traceLog, toAgentTraceEntry, hf, hp, hq, Option.or]

/-- Witness for C6: the concrete record of `sampleEntry` carries the intent
relation and its range hash equals the post hash. -/
theorem C6_ledger_record_invariants_witness :
    traceLog sampleEntry {} none =
      { id := "id1".data, timestamp := "t".data, vcs_revision_id := none,
        files := [⟨"src/a.ts".data,
          [⟨"s".data, .AI, "unknown".data,
            [⟨1, 1, "sha256:abc".data⟩],
            [⟨.intent, "INT-001".data⟩]⟩]⟩] }
    ∧ (⟨RelType.intent, "INT-001".data⟩ : AgentTraceRelation) ∈
        [(⟨RelType.intent, "INT-001".data⟩ : AgentTraceRelation)] := by
  constructor
  · rfl
  · have h := (C6_ledger_record_invariants sampleEntry {} none).1
    have hf : traceLog sampleEntry {} none =
        { id := "id1".data, timestamp := "t".data, vcs_revision_id := none,
          files := [⟨"src/a.ts".data,
            [⟨"s".data, .AI, "unknown".data,
              [⟨1, 1, "sha256:abc".data⟩],
              [⟨.intent, "INT-001".data⟩]⟩]⟩] } := rfl
    have := h _ (by rw [hf]; exact List.mem_singleton.mpr rfl) _
      (List.mem_singleton.mpr rfl)
    simpa using this

theorem isInScope_exists {rel : Str} {patterns : List Str}
    (h : isInScope rel patterns = true) :
    ∃ p ∈ patterns, isInScope rel [p] = true := by
  simp only [isInScope, List.any_eq_true] at h
  obtain ⟨p, hp, hm⟩ := h
  exact ⟨p, hp, by simp [isInScope, hm]⟩

theorem preToolUse_write_in_scope (env : Env) (st : EngineState)
    (ctx : PreToolContext) (iid : Str) (intent : IntentSpec) (fp : Str)
    (hW : WRITE_TOOLS.contains ctx.toolName = true)
    (hIid : ctx.intentId = some iid)
    (hInt : getIntent env.catalog iid = some intent)
    (hSt : intent.status = .IN_PROGRESS)
    (hFp : ctx.filePath = some fp)
    (hIgn : isIgnored env.ignoreToks (relPathOf env.workspacePath fp) = false)
    (hScope : isInScope (relPathOf env.workspacePath fp) intent.owned_scope = true) :
    preToolUse env st ctx = preHashStep env st ctx iid := by
  have hE := write_not_exempt hW
  have hD := write_not_destructive hW
  unfold preToolUse hitlAndHashStep
  rw [hE, hD, hIid]
  simp [hW, write_mem hW, hInt, hSt, hFp, hIgn, hScope, hD]

/-- C3 as amended: for a write-tool call with a file path that passes the
intent, status, ignore and scope gates, the engine computes the
pre-mutation hash; when that hash is non-null and the per-session cache
holds a differing hash for the path, the call fails with a reason carrying
both truncated hashes and the directive to re-read; when it is non-null
otherwise, the hash is stored in the cache and the call is allowed with
it; when the hash is null (the file does not exist), the stale check and
the cache store are skipped and the call is allowed with a null preHash. -/
theorem C3_optimistic_lock_amended (env : Env) (st : EngineState)
    (ctx : PreToolContext) (iid : Str) (intent : IntentSpec) (fp : Str)
    (hW : WRITE_TOOLS.contains ctx.toolName = true)
    (hIid : ctx.intentId = some iid)
    (hInt : getIntent env.catalog iid = some intent)
    (hSt : intent.status = .IN_PROGRESS)
    (hFp : ctx.filePath = some fp)
    (hIgn : isIgnored env.ignoreToks (relPathOf env.workspacePath fp) = false)
    (hScope : isInScope (relPathOf env.workspacePath fp) intent.owned_scope = true) :
    (computeFileHash env.fs env.digest
        (if isAbsolutePath fp then fp else joinPath env.workspacePath fp) = none →
      preToolUse env st ctx = ({ allowed := true, preHash := some none }, st))
    ∧ (∀ h, computeFileHash env.fs env.digest
          (if isAbsolutePath fp then fp else joinPath env.workspacePath fp) = some h →
        (∀ c, cacheGet st.fileHashCache (relPathOf env.workspacePath fp) = some c →
          c ≠ h →
          preToolUse env st ctx =
            ({ allowed := false,
               reason := some (staleFileReason (relPathOf env.workspacePath fp) c h) },
             st)
          ∧ sliceTo 12 c <:+: staleFileReason (relPathOf env.workspacePath fp) c h
          ∧ sliceTo 12 h <:+: staleFileReason (relPathOf env.workspacePath fp) c h
          ∧ "Re-read".data <:+: staleFileReason (relPathOf env.workspacePath fp) c h)
        ∧ (cacheGet st.fileHashCache (relPathOf env.workspacePath fp) = none ∨
            cacheGet st.fileHashCache (relPathOf env.workspacePath fp) = some h →
          preToolUse env st ctx =
            ({ allowed := true, preHash := some (some h) },
             { st with fileHashCache :=
                 cacheSet st.fileHashCache (relPathOf env.workspacePath fp) h }))) := by
  have hred := preToolUse_write_in_scope env st ctx iid intent fp
    hW hIid hInt hSt hFp hIgn hScope
  rw [hred]
  refine ⟨?_, ?_⟩
  · intro hph
    unfold preHashStep
    rw [hFp]
    simp [hph]
  · intro h hph
    refine ⟨?_, ?_⟩
    · intro c hc hne
      refine ⟨?_, ?_, ?_, ?_⟩
      · unfold preHashStep
        rw [hFp]
        simp [hph, hW, write_mem hW, hc, hne]
      · have hsh : staleFileReason (relPathOf env.workspacePath fp) c h =
            ("Stale file: \"".data ++ relPathOf env.workspacePath fp ++
              "\" was modified since last read. Expected hash ".data) ++
            sliceTo 12 c ++
            ("... but found ".data ++ sliceTo 12 h ++
              "... Re-read the file before writing.".data) := by
          simp [staleFileReason]
        rw [hsh]
        exact List.infix_append _ _ _
      · have hsh : staleFileReason (relPathOf env.workspacePath fp) c h =
            ("Stale file: \"".data ++ relPathOf env.workspacePath fp ++
              "\" was modified since last read. Expected hash ".data ++
              sliceTo 12 c ++ "... but found ".data) ++
            sliceTo 12 h ++ "... Re-read the file before writing.".data := by
          simp [staleFileReason]
        rw [hsh]
        exact List.infix_append _ _ _
      · unfold staleFileReason
        exact infix_app_left _ (by decide)
    · intro hor
      unfold preHashStep
      rw [hFp]
      rcases hor with hc | hc
      · simp [hph, hW, write_mem hW, hc]
      · simp [hph, hW, write_mem hW, hc]

/-- Counterexample to C3 as stated: with a cached hash for the path and the
file absent (preHash null, thus differing from the cached hash), the claim
prescribes a stale-file failure, but the call is allowed — the stale check
and the cache store are skipped entirely for a null preHash. -/
theorem C3_counterexample :
    cacheGet staleState.fileHashCache ("src/core/hooks/X.ts".data)
        = some ("sha256:cachedhash0".data)
    ∧ computeFileHash sampleEnv.fs sampleEnv.digest
        ("/ws/src/core/hooks/X.ts".data) = none
    ∧ (preToolUse sampleEnv staleState
        { toolName := "write_to_file",
          filePath := some ("src/core/hooks/X.ts".data),
          intentId := some ("INT-001".data) }).1
        = { allowed := true, preHash := some none }
    ∧ (preToolUse sampleEnv staleState
        { toolName := "write_to_file",
          filePath := some ("src/core/hooks/X.ts".data),
          intentId := some ("INT-001".data) }).2 = staleState := by
  refine ⟨by decide, by decide, by decide, by decide⟩

/-- Witness for C3's amended theorem: a concrete stale-read rejection. -/
theorem C3_optimistic_lock_amended_witness :
    preToolUse envWithX staleState
      { toolName := "write_to_file",
        filePath := some ("src/core/hooks/X.ts".data),
        intentId := some ("INT-001".data) }
      = ({ allowed := false,
           reason := some (staleFileReason ("src/core/hooks/X.ts".data)
             ("sha256:cachedhash0".data)
             (computeContentHash sampleDigest ('v' :: '2' :: []))) },
         staleState) :=
  ((C3_optimistic_lock_amended envWithX staleState
      { toolName := "write_to_file",
        filePath := some ("src/core/hooks/X.ts".data),
        intentId := some ("INT-001".data) }
      ("INT-001".data) sampleIntent ("src/core/hooks/X.ts".data)
      (by decide) rfl (by decide) rfl rfl (by decide) (by decide)).2
    (computeContentHash sampleDigest ('v' :: '2' :: [])) (by decide)).1
    ("sha256:cachedhash0".data) (by decide) (by decide) |>.1

/-- C2 as amended: every allowed write-tool call with a non-null file path
whose (workspace-relative) path is not matched by the ignore set carries
an active intent found in the catalog, and some pattern of that intent's
owned_scope accepts the path (paths matched by `.intentignore` bypass the
scope fence entirely). -/
theorem C2_scope_fence_amended (env : Env) (st : EngineState)
    (ctx : PreToolContext) (fp : Str)
    (hW : WRITE_TOOLS.contains ctx.toolName = true)
    (hFp : ctx.filePath = some fp)
    (hIgn : isIgnored env.ignoreToks (relPathOf env.workspacePath fp) = false)
    (hA : (preToolUse env st ctx).1.allowed = true) :
    ∃ iid intent, ctx.intentId = some iid
      ∧ getIntent env.catalog iid = some intent
      ∧ isInScope (relPathOf env.workspacePath fp) intent.owned_scope = true
      ∧ ∃ p ∈ intent.owned_scope,
          isInScope (relPathOf env.workspacePath fp) [p] = true := by
  have hE := write_not_exempt hW
  have hD := write_not_destructive hW
  have hWm := write_mem hW
  unfold preToolUse at hA
  rw [hE, hD] at hA
  simp only [Bool.false_eq_true, if_false] at hA
  cases hIid : ctx.intentId with
  | none =>
    rw [hIid] at hA
    simp [hW, hWm] at hA
  | some iid =>
    rw [hIid] at hA
    simp only [hW, Bool.not_true, Bool.false_eq_true, if_false] at hA
    cases hInt : getIntent env.catalog iid with
    | none =>
      rw [hInt] at hA
      simp at hA
    | some intent =>
      rw [hInt] at hA
      by_cases hSt : intent.status = .IN_PROGRESS
      · rw [hFp] at hA
        simp only [hSt] at hA
        by_cases hSc : isInScope (relPathOf env.workspacePath fp) intent.owned_scope = true
        · exact ⟨iid, intent, rfl, hInt, hSc, isInScope_exists hSc⟩
        · rw [Bool.not_eq_true] at hSc
          simp [hIgn, hSc] at hA
      · simp [hSt] at hA

/-- Counterexample to C2 as stated: a write to an `.intentignore`-matched
path outside the active intent's owned_scope is allowed, yet no
owned_scope pattern accepts the path. -/
theorem C2_counterexample :
    WRITE_TOOLS.contains "write_to_file" = true
    ∧ isIgnored sampleEnv.ignoreToks ("dist/bundle.js".data) = true
    ∧ (preToolUse sampleEnv {}
        { toolName := "write_to_file",
          filePath := some ("dist/bundle.js".data),
          intentId := some ("INT-001".data) }).1
        = { allowed := true, metadata := some .intentIgnored }
    ∧ (∀ p ∈ sampleIntent.owned_scope,
        isInScope ("dist/bundle.js".data) [p] = false) := by
  refine ⟨by decide, by decide, by decide, by decide⟩

/-- Witness for C2's amended theorem: a concrete allowed in-scope write. -/
theorem C2_scope_fence_amended_witness :
    ∃ iid intent,
      ({ toolName := "write_to_file",
         filePath := some ("src/core/hooks/X.ts".data),
         intentId := some ("INT-001".data) } : PreToolContext).intentId = some iid
      ∧ getIntent sampleEnv.catalog iid = some intent
      ∧ isInScope (relPathOf sampleEnv.workspacePath ("src/core/hooks/X.ts".data))
          intent.owned_scope = true
      ∧ ∃ p ∈ intent.owned_scope,
          isInScope (relPathOf sampleEnv.workspacePath ("src/core/hooks/X.ts".data))
            [p] = true :=
  C2_scope_fence_amended sampleEnv {}
    { toolName := "write_to_file",
      filePath := some ("src/core/hooks/X.ts".data),
      intentId := some ("INT-001".data) }
    ("src/core/hooks/X.ts".data) (by decide) rfl (by decide) (by decide)

theorem dropTracesGo_fields (fuel : Nat) (ctx : IntentContext) :
    (dropTracesGo fuel ctx).intent = ctx.intent
    ∧ (dropTracesGo fuel ctx).constraints = ctx.constraints
    ∧ (dropTracesGo fuel ctx).acceptanceCriteria = ctx.acceptanceCriteria
    ∧ (dropTracesGo fuel ctx).relatedFiles = ctx.relatedFiles
    ∧ (dropTracesGo fuel ctx).specExcerpts = ctx.specExcerpts := by
  induction fuel generalizing ctx with
  | zero => simp [dropTracesGo]
  | succ n ih =>
    rw [dropTracesGo]
    split
    · simp
    · split
      · simp
      · simpa using ih _

theorem dropExcerptsGo_fields (fuel : Nat) (ctx : IntentContext) :
    (dropExcerptsGo fuel ctx).intent = ctx.intent
    ∧ (dropExcerptsGo fuel ctx).constraints = ctx.constraints
    ∧ (dropExcerptsGo fuel ctx).acceptanceCriteria = ctx.acceptanceCriteria
    ∧ (dropExcerptsGo fuel ctx).relatedFiles = ctx.relatedFiles
    ∧ (dropExcerptsGo fuel ctx).recentTraceEntries = ctx.recentTraceEntries := by
  induction fuel generalizing ctx with
  | zero => simp [dropExcerptsGo]
  | succ n ih =>
    rw [dropExcerptsGo]
    split
    · simp
    · split
      · simpa using ih _
      · simp

theorem dropRelatedFilesGo_fields (fuel : Nat) (ctx : IntentContext) :
    (dropRelatedFilesGo fuel ctx).intent = ctx.intent
    ∧ (dropRelatedFilesGo fuel ctx).constraints = ctx.constraints
    ∧ (dropRelatedFilesGo fuel ctx).acceptanceCriteria = ctx.acceptanceCriteria
    ∧ (dropRelatedFilesGo fuel ctx).recentTraceEntries = ctx.recentTraceEntries
    ∧ (dropRelatedFilesGo fuel ctx).specExcerpts = ctx.specExcerpts := by
  induction fuel generalizing ctx with
  | zero => simp [dropRelatedFilesGo]
  | succ n ih =>
    rw [dropRelatedFilesGo]
    split
    · simp
    · split
      · simp
      · simpa using ih _

theorem dropTracesGo_post (fuel : Nat) (ctx : IntentContext)
    (hf : ctx.recentTraceEntries.length ≤ fuel) :
    ctxLen (dropTracesGo fuel ctx) ≤ MAX_CONTEXT_BYTES
    ∨ (dropTracesGo fuel ctx).recentTraceEntries = [] := by
  induction fuel generalizing ctx with
  | zero =>
    right
    have h0 : ctx.recentTraceEntries = [] :=
      List.length_eq_zero.mp (Nat.le_zero.mp hf)
    simp [dropTracesGo, h0]
  | succ n ih =>
    rw [dropTracesGo]
    split
    · left
      assumption
    · split
      · right
        rename_i heq
        exact heq
      · exact ih _ (by simp_all; try omega)

theorem dropExcerptsGo_post (fuel : Nat) (ctx : IntentContext)
    (hf : (ctx.specExcerpts.getD []).length ≤ fuel) :
    ctxLen (dropExcerptsGo fuel ctx) ≤ MAX_CONTEXT_BYTES
    ∨ (dropExcerptsGo fuel ctx).specExcerpts = none
    ∨ (dropExcerptsGo fuel ctx).specExcerpts = some [] := by
  induction fuel generalizing ctx with
  | zero =>
    right
    simp only [dropExcerptsGo]
    cases hs : ctx.specExcerpts with
    | none => left; rfl
    | some l =>
      right
      rw [hs] at hf
      simp at hf
      rw [hf]
  | succ n ih =>
    rw [dropExcerptsGo]
    split
    · left
      assumption
    · split
      · exact ih _ (by simp_all)
      · rename_i hq hne
        cases hs : ctx.specExcerpts with
        | none => right; left; rfl
        | some l =>
          cases l with
          | nil => right; right; rfl
          | cons x rest => exact absurd hs (by intro hc; exact hne x rest hc)

theorem dropRelatedFilesGo_post (fuel : Nat) (ctx : IntentContext)
    (hf : ctx.relatedFiles.length ≤ fuel) :
    ctxLen (dropRelatedFilesGo fuel ctx) ≤ MAX_CONTEXT_BYTES
    ∨ (dropRelatedFilesGo fuel ctx).relatedFiles = [] := by
  induction fuel generalizing ctx with
  | zero =>
    right
    have h0 : ctx.relatedFiles = [] :=
      List.length_eq_zero.mp (Nat.le_zero.mp hf)
    simp [dropRelatedFilesGo, h0]
  | succ n ih =>
    rw [dropRelatedFilesGo]
    split
    · left
      assumption
    · split
      · right
        rename_i heq
        exact heq
      · exact ih _ (by simp_all; try omega)

theorem dropTracesGo_of_le (fuel : Nat) (ctx : IntentContext)
    (h : ctxLen ctx ≤ MAX_CONTEXT_BYTES) : dropTracesGo fuel ctx = ctx := by
  cases fuel <;> simp [dropTracesGo, h]

theorem dropExcerptsGo_of_le (fuel : Nat) (ctx : IntentContext)
    (h : ctxLen ctx ≤ MAX_CONTEXT_BYTES) : dropExcerptsGo fuel ctx = ctx := by
  cases fuel <;> simp [dropExcerptsGo, h]

theorem dropRelatedFilesGo_of_le (fuel : Nat) (ctx : IntentContext)
    (h : ctxLen ctx ≤ MAX_CONTEXT_BYTES) : dropRelatedFilesGo fuel ctx = ctx := by
  cases fuel <;> simp [dropRelatedFilesGo, h]

theorem ctxLen_clear_spec_le (ctx : IntentContext)
    (h : ctx.specExcerpts = some []) :
    ctxLen { ctx with specExcerpts := none } ≤ ctxLen ctx := by
  simp [ctxLen, jsonCtx, h, jsonStrArr, jsonArr, joinComma, List.length_append]

theorem tier2_fields (ctx : IntentContext) :
    (tier2 ctx).intent = ctx.intent
    ∧ (tier2 ctx).constraints = ctx.constraints
    ∧ (tier2 ctx).acceptanceCriteria = ctx.acceptanceCriteria
    ∧ (tier2 ctx).relatedFiles = ctx.relatedFiles
    ∧ (tier2 ctx).recentTraceEntries = ctx.recentTraceEntries := by
  obtain ⟨e1, e2, e3, e4, e5⟩ :=
    dropExcerptsGo_fields ((ctx.specExcerpts.getD []).length) ctx
  cases hs : ctx.specExcerpts with
  | none => simp [tier2, hs]
  | some l =>
    simp only [tier2, hs]
    split <;> simp [dropExcerpts, e1, e2, e3, e4, e5]

theorem tier2_le_of_le (ctx : IntentContext)
    (h : ctxLen ctx ≤ MAX_CONTEXT_BYTES) :
    ctxLen (tier2 ctx) ≤ MAX_CONTEXT_BYTES := by
  cases hs : ctx.specExcerpts with
  | none => simpa [tier2, hs] using h
  | some l =>
    simp only [tier2, hs]
    have hde : dropExcerpts ctx = ctx := by
      simp [dropExcerpts, dropExcerptsGo_of_le _ _ h]
    rw [hde]
    split
    · rename_i hc
      exact le_trans (ctxLen_clear_spec_le ctx hc) h
    · exact h

theorem tier2_post (ctx : IntentContext) :
    ctxLen (tier2 ctx) ≤ MAX_CONTEXT_BYTES ∨ (tier2 ctx).specExcerpts = none := by
  cases hs : ctx.specExcerpts with
  | none => right; simp [tier2, hs]
  | some l =>
    have hpost : ctxLen (dropExcerpts ctx) ≤ MAX_CONTEXT_BYTES
        ∨ (dropExcerpts ctx).specExcerpts = none
        ∨ (dropExcerpts ctx).specExcerpts = some [] := by
      simpa [dropExcerpts] using
        dropExcerptsGo_post ((ctx.specExcerpts.getD []).length) ctx (le_refl _)
    simp only [tier2, hs]
    rcases hpost with hle | hnone | hsome
    · split
      · rename_i hc
        exact Or.inl (le_trans (ctxLen_clear_spec_le _ hc) hle)
      · exact Or.inl hle
    · split
      · rename_i hc
        rw [hnone] at hc
        simp at hc
      · exact Or.inr hnone
    · split
      · right
        simp
      · rename_i hc
        exact absurd hsome hc

theorem truncateContext_fields (ctx : IntentContext) :
    (truncateContext ctx).intent = ctx.intent
    ∧ (truncateContext ctx).constraints = ctx.constraints
    ∧ (truncateContext ctx).acceptanceCriteria = ctx.acceptanceCriteria := by
  unfold truncateContext
  split
  · simp
  · obtain ⟨a1, a2, a3, a4, a5⟩ :=
      dropRelatedFilesGo_fields ((tier2 (dropTraces ctx)).relatedFiles.length)
        (tier2 (dropTraces ctx))
    obtain ⟨b1, b2, b3, b4, b5⟩ := tier2_fields (dropTraces ctx)
    obtain ⟨c1, c2, c3, c4, c5⟩ :=
      dropTracesGo_fields (ctx.recentTraceEntries.length) ctx
    simp only [dropRelatedFiles, dropTraces] at *
    exact ⟨by rw [a1, b1, c1], by rw [a2, b2, c2], by rw [a3, b3, c3]⟩

theorem truncateContext_budget (ctx : IntentContext)
    (hcore : ctxLen
        { ctx with
          recentTraceEntries := []
          relatedFiles := []
          specExcerpts := none } ≤ MAX_CONTEXT_BYTES) :
    ctxLen (truncateContext ctx) ≤ MAX_CONTEXT_BYTES := by
  unfold truncateContext
  split
  · assumption
  · by_contra hgt
    have hpost3 : ctxLen (dropRelatedFiles (tier2 (dropTraces ctx))) ≤ MAX_CONTEXT_BYTES
        ∨ (dropRelatedFiles (tier2 (dropTraces ctx))).relatedFiles = [] := by
      simpa [dropRelatedFiles] using
        dropRelatedFilesGo_post ((tier2 (dropTraces ctx)).relatedFiles.length)
          (tier2 (dropTraces ctx)) (le_refl _)
    rcases hpost3 with h3 | h3
    · exact hgt h3
    · have hc2gt : ¬ ctxLen (tier2 (dropTraces ctx)) ≤ MAX_CONTEXT_BYTES := by
        intro hle
        exact hgt (by
          simpa [dropRelatedFiles, dropRelatedFilesGo_of_le _ _ hle] using hle)
      rcases tier2_post (dropTraces ctx) with h2 | h2
      · exact hc2gt h2
      · have hc1gt : ¬ ctxLen (dropTraces ctx) ≤ MAX_CONTEXT_BYTES := by
          intro hle
          exact hc2gt (tier2_le_of_le _ hle)
        have hpost1 : ctxLen (dropTraces ctx) ≤ MAX_CONTEXT_BYTES
            ∨ (dropTraces ctx).recentTraceEntries = [] := by
          simpa [dropTraces] using
            dropTracesGo_post (ctx.recentTraceEntries.length) ctx (le_refl _)
        rcases hpost1 with h1 | h1
        · exact hc1gt h1
        · obtain ⟨a1, a2, a3, a4, a5⟩ :=
            dropRelatedFilesGo_fields ((tier2 (dropTraces ctx)).relatedFiles.length)
              (tier2 (dropTraces ctx))
          obtain ⟨b1, b2, b3, b4, b5⟩ := tier2_fields (dropTraces ctx)
          obtain ⟨c1, c2, c3, c4, c5⟩ :=
            dropTracesGo_fields (ctx.recentTraceEntries.length) ctx
          have hint : (dropRelatedFiles (tier2 (dropTraces ctx))).intent
              = ctx.intent := by
            simp only [dropRelatedFiles, dropTraces] at *
            rw [a1, b1, c1]
          have hcon : (dropRelatedFiles (tier2 (dropTraces ctx))).constraints
              = ctx.constraints := by
            simp only [dropRelatedFiles, dropTraces] at *
            rw [a2, b2, c2]
          have hacc : (dropRelatedFiles (tier2 (dropTraces ctx))).acceptanceCriteria
              = ctx.acceptanceCriteria := by
            simp only [dropRelatedFiles, dropTraces] at *
            rw [a3, b3, c3]
          have hent : (dropRelatedFiles (tier2 (dropTraces ctx))).recentTraceEntries
              = [] := by
            simp only [dropRelatedFiles, dropTraces] at *
            rw [a4, b5, h1]
          have hspec : (dropRelatedFiles (tier2 (dropTraces ctx))).specExcerpts
              = none := by
            simp only [dropRelatedFiles, dropTraces] at *
            rw [a5, h2]
          have hceq : dropRelatedFiles (tier2 (dropTraces ctx)) =
              { intent := ctx.intent, relatedFiles := [], recentTraceEntries := [],
                constraints := ctx.constraints,
                acceptanceCriteria := ctx.acceptanceCriteria,
                specExcerpts := none } := by
            have hx : (⟨(dropRelatedFiles (tier2 (dropTraces ctx))).intent,
                (dropRelatedFiles (tier2 (dropTraces ctx))).relatedFiles,
                (dropRelatedFiles (tier2 (dropTraces ctx))).recentTraceEntries,
                (dropRelatedFiles (tier2 (dropTraces ctx))).constraints,
                (dropRelatedFiles (tier2 (dropTraces ctx))).acceptanceCriteria,
                (dropRelatedFiles (tier2 (dropTraces ctx))).specExcerpts⟩ :
                  IntentContext) =
                { intent := ctx.intent, relatedFiles := [], recentTraceEntries := [],
                  constraints := ctx.constraints,
                  acceptanceCriteria := ctx.acceptanceCriteria,
                  specExcerpts := none } := by
              rw [hint, hcon, hacc, hent, hspec, h3]
            exact hx
          rw [hceq] at hgt
          exact hgt hcore

theorem jsonEscChar_len (c : Char) : 1 ≤ (jsonEscChar c).length := by
  unfold jsonEscChar
  repeat' split
  all_goals simp

theorem jsonEsc_len_ge (s : Str) : s.length ≤ (jsonEsc s).length := by
  induction s with
  | nil => simp [jsonEsc]
  | cons c cs ih =>
    have := jsonEscChar_len c
    simp [jsonEsc, List.length_append]
    omega

theorem joinComma_mem_le (x : Str) (xs : List Str) (h : x ∈ xs) :
    x.length ≤ (joinComma xs).length := by
  induction xs with
  | nil => simp at h
  | cons y ys ih =>
    cases ys with
    | nil =>
      simp at h
      subst h
      simp [joinComma]
    | cons z zs =>
      rcases List.mem_cons.mp h with rfl | hmem
      · simp [joinComma, List.length_append]
      · have := ih hmem
        simp [joinComma, List.length_append] at this ⊢
        omega

theorem ctxLen_ge_constraint (ctx : IntentContext) (s : Str)
    (hs : s ∈ ctx.constraints) : s.length ≤ ctxLen ctx := by
  have h1 : (jsonStrLit s).length ≤
      (joinComma (ctx.constraints.map jsonStrLit)).length :=
    joinComma_mem_le _ _ (List.mem_map_of_mem _ hs)
  have h2 : s.length ≤ (jsonStrLit s).length := by
    have := jsonEsc_len_ge s
    simp [jsonStrLit, List.length_append]
    omega
  simp [ctxLen, jsonCtx, jsonStrArr, jsonArr, List.length_append]
  omega

/-- C7 as amended: whenever the never-dropped core of the context — the
intent itself with its constraints and acceptance criteria, and no
droppable trace entries, spec excerpts or related files — fits the
16,384-byte budget measured on the JSON serialization, the context
returned by buildIntentContext fits the budget, and the intent, its
constraints and its acceptance criteria are never dropped.  (When the
core alone exceeds the budget the result exceeds it too, as the
counterexample shows.) -/
theorem buildIntentContext_char (catalog : List IntentSpec)
    (readSpec : Str → Option Str) (mapContent : Option Str)
    (traces : List TraceEntry) (id : Str) (intent : IntentSpec)
    (hInt : getIntent catalog id = some intent) :
    buildIntentContext catalog readSpec mapContent traces id
      = some (truncateContext
        { intent := intent
          relatedFiles := loadSpatialEntries mapContent id
          recentTraceEntries := lastN MAX_RECENT_TRACES
            (traces.filter (fun e => e.intent_id = id))
          constraints := intent.constraints
          acceptanceCriteria := intent.acceptance_criteria
          specExcerpts :=
            if resolveRelatedSpecs readSpec intent ≠ [] then
              some (resolveRelatedSpecs readSpec intent)
            else none }) := by
  unfold buildIntentContext
  rw [hInt]

theorem C7_context_budget_amended (catalog : List IntentSpec)
    (readSpec : Str → Option Str) (mapContent : Option Str)
    (traces : List TraceEntry) (id : Str) (intent : IntentSpec)
    (hInt : getIntent catalog id = some intent)
    (hcore : ctxLen
        { intent := intent
          relatedFiles := []
          recentTraceEntries := []
          constraints := intent.constraints
          acceptanceCriteria := intent.acceptance_criteria
          specExcerpts := none } ≤ MAX_CONTEXT_BYTES) :
    ∃ c, buildIntentContext catalog readSpec mapContent traces id = some c
      ∧ ctxLen c ≤ MAX_CONTEXT_BYTES
      ∧ c.intent = intent
      ∧ c.constraints = intent.constraints
      ∧ c.acceptanceCriteria = intent.acceptance_criteria := by
  refine ⟨_, buildIntentContext_char catalog readSpec mapContent traces id intent hInt,
    ?_, ?_, ?_, ?_⟩
  · exact truncateContext_budget _ hcore
  · exact (truncateContext_fields _).1
  · exact (truncateContext_fields _).2.1
  · exact (truncateContext_fields _).2.2

theorem ctxLen_big (ctx : IntentContext) (s : Str)
    (hs : s ∈ ctx.constraints) (hlen : 16384 < s.length) :
    16384 < ctxLen ctx :=
  lt_of_lt_of_le hlen (ctxLen_ge_constraint ctx s hs)

/-- Counterexample to C7 as stated: with an intent whose own constraints
serialize beyond 16,384 bytes, the context returned by buildIntentContext
exceeds the budget — the intent, its constraints and its acceptance
criteria are never dropped by truncateContext, so no amount of truncation
can fit it. -/
theorem C7_counterexample :
    ∃ c, buildIntentContext [hugeIntent] (fun _ => none) none []
        ("INT-001".data) = some c
      ∧ 16384 < ctxLen c := by
  have hInt : getIntent [hugeIntent] ("INT-001".data) = some hugeIntent := by
    rw [show getIntent [hugeIntent] ("INT-001".data)
      = List.find? (fun i => i.id = ("INT-001".data)) [hugeIntent] from rfl]
    rw [List.find?_cons]
    simp only [show (decide (hugeIntent.id = ("INT-001".data))) = true from rfl]
  refine ⟨_, buildIntentContext_char [hugeIntent] (fun _ => none) none []
    ("INT-001".data) hugeIntent hInt, ?_⟩
  refine ctxLen_big _ hugeStr ?_ ?_
  · rw [(truncateContext_fields _).2.1]
    exact List.mem_singleton.mpr rfl
  · have h := List.length_replicate 20000 'a'
    show 16384 < (List.replicate 20000 'a').length
    omega

set_option maxRecDepth 4096 in
/-- Witness for C7's amended theorem at a small concrete catalog. -/
theorem C7_context_budget_amended_witness :
    ∃ c, buildIntentContext [sampleIntent] (fun _ => none) none []
        ("INT-001".data) = some c
      ∧ ctxLen c ≤ MAX_CONTEXT_BYTES
      ∧ c.intent = sampleIntent
      ∧ c.constraints = sampleIntent.constraints
      ∧ c.acceptanceCriteria = sampleIntent.acceptance_criteria :=
  C7_context_budget_amended [sampleIntent] (fun _ => none) none []
    ("INT-001".data) sampleIntent (by decide) (by decide)

-- ---------------------------------------------------------------------------
-- C9: idempotence of the spatial-map update
-- ---------------------------------------------------------------------------

/-- A string with no newline splits to itself. -/
theorem splitOnNl_nlfree (a : Str) (h : '\n' ∉ a) : splitOnNl a = [a] := by
  induction a with
  | nil => rfl
  | cons c rest ih =>
    have hc : ¬ c = '\n' := fun hc => h (hc ▸ List.mem_cons_self c rest)
    have hr : '\n' ∉ rest := fun hm => h (List.mem_cons_of_mem c hm)
    rw [splitOnNl, if_neg hc, ih hr]

/-- Splitting a newline-free chunk followed by a newline peels one line. -/
theorem splitOnNl_append (a b : Str) (h : '\n' ∉ a) :
    splitOnNl (a ++ '\n' :: b) = a :: splitOnNl b := by
  induction a with
  | nil => simp [splitOnNl]
  | cons c rest ih =>
    have hc : ¬ c = '\n' := fun hc => h (hc ▸ List.mem_cons_self c rest)
    have hr : '\n' ∉ rest := fun hm => h (List.mem_cons_of_mem c hm)
    rw [List.cons_append, splitOnNl, if_neg hc, ih hr]

/-- Splitting at a leading newline yields an empty first line. -/
theorem splitOnNl_cons_nl (b : Str) :
    splitOnNl ('\n' :: b) = [] :: splitOnNl b := by
  simp [splitOnNl]

/-- The split of any string is nonempty. -/
theorem splitOnNl_ne_nil (s : Str) : splitOnNl s ≠ [] := by
  cases s with
  | nil => simp [splitOnNl]
  | cons c rest =>
    rw [splitOnNl]
    split
    · simp
    · split <;> simp_all

/-- Joining the split lines restores the original content. -/
theorem joinNl_splitOnNl (s : Str) : joinNl (splitOnNl s) = s := by
  induction s with
  | nil => rfl
  | cons c rest ih =>
    obtain ⟨x, xs, hx⟩ : ∃ x xs, splitOnNl rest = x :: xs := by
      cases h : splitOnNl rest with
      | nil => exact absurd h (splitOnNl_ne_nil rest)
      | cons x xs => exact ⟨x, xs, rfl⟩
    by_cases hc : c = '\n'
    · subst hc
      rw [splitOnNl, if_pos rfl, hx]
      cases xs with
      | nil =>
        have hrest : x = rest := by
          have := ih
          rw [hx] at this
          exact this
        show '\n' :: x = '\n' :: rest
        rw [hrest]
      | cons y ys =>
        show '\n' :: joinNl (x :: y :: ys) = '\n' :: rest
        rw [← hx, ih]
    · rw [splitOnNl, if_neg hc, hx]
      cases xs with
      | nil =>
        have hrest : rest = x := by rw [← ih, hx]; rfl
        show (c :: x) = c :: rest
        rw [hrest]
      | cons y ys =>
        show (c :: x) ++ '\n' :: joinNl (y :: ys) = c :: rest
        have h2 : x ++ '\n' :: joinNl (y :: ys) = rest := by
          rw [← ih, hx]; rfl
        simp [← h2]

/-- The duplicate scan skips a non-header line while out of the section. -/
theorem dedupGo_skip_f (id n l : Str) (rest : List Str)
    (h1 : startsWith ("## ".data) l = false) :
    dedupGo id n (l :: rest) false = dedupGo id n rest false := by
  simp [dedupGo, h1]

/-- The duplicate scan enters the section at a header containing the id. -/
theorem dedupGo_enter (id n l : Str) (rest : List Str) (s : Bool)
    (h1 : startsWith ("## ".data) l = true)
    (h2 : containsSub id l = true) :
    dedupGo id n (l :: rest) s = dedupGo id n rest true := by
  simp [dedupGo, h1, h2]

/-- The duplicate scan skips a needle-free non-header line in the section. -/
theorem dedupGo_skip_t (id n l : Str) (rest : List Str)
    (h1 : startsWith ("## ".data) l = false)
    (h3 : containsSub n l = false) :
    dedupGo id n (l :: rest) true = dedupGo id n rest true := by
  simp [dedupGo, h1, h3]

/-- The duplicate scan reports a section line containing the needle. -/
theorem dedupGo_found (id n l : Str) (rest : List Str)
    (h1 : startsWith ("## ".data) l = false)
    (h3 : containsSub n l = true) :
    dedupGo id n (l :: rest) true = true := by
  simp [dedupGo, h1, h3]

/-- A string starts with any of its own prefixes. -/
theorem startsWith_append_self (p r : Str) : startsWith p (p ++ r) = true := by
  simp [startsWith]

/-- A needle whose head is absent from the haystack is not contained. -/
theorem containsSub_head_false (c : Char) (tl h : Str) (hc : c ∉ h) :
    containsSub (c :: tl) h = false := by
  simp [containsSub]
  intro hinf
  exact absurd (hinf.subset (List.mem_cons_self c tl)) hc

/-- A needle is contained after prepending two characters. -/
theorem containsSub_cons2 (a b : Char) (n : Str) :
    containsSub n (a :: b :: n) = true := by
  simp [containsSub]
  exact ⟨[a, b], [], by simp⟩

/-- Distinct head characters refute a prefix test. -/
theorem sw_ne_hd (c d : Char) (p l : Str) (h : ¬ c = d) :
    startsWith (c :: p) (d :: l) = false := by
  simp [startsWith, List.cons_prefix_cons, h]

/-- No section-header prefix matches the default title line. -/
theorem sw_hash_line (id : Str) :
    startsWith (['#', '#', ' '] ++ id) mapLine0 = false := by
  show startsWith ('#' :: '#' :: ' ' :: id)
    ('#' :: ' ' :: "Intent-Code Spatial Map".data) = false
  simp [startsWith, List.cons_prefix_cons]

/-- No section-header prefix matches the default description line. -/
theorem sw_T_line (id : Str) :
    startsWith (['#', '#', ' '] ++ id) mapLine2 = false := by
  show startsWith ('#' :: '#' :: ' ' :: id)
    ('T' :: "his file maps business intents to physical files and AST nodes.".data)
      = false
  simp [startsWith, List.cons_prefix_cons]

/-- No section-header prefix matches an empty line. -/
theorem sw_nil_line (id : Str) :
    startsWith (['#', '#', ' '] ++ id) [] = false := by
  show startsWith ('#' :: '#' :: ' ' :: id) [] = false
  simp [startsWith]

/-- The default map content splits into its four lines. -/
theorem splitOnNl_default :
    splitOnNl defaultMapContent = [mapLine0, [], mapLine2, []] := by
  decide

/-- The duplicate scan finds nothing in the default map lines. -/
theorem dedup_default (id n : Str) :
    dedupGo id n [mapLine0, [], mapLine2, []] false = false := by
  rw [dedupGo_skip_f id n _ _ (by decide), dedupGo_skip_f id n _ _ (by decide),
    dedupGo_skip_f id n _ _ (by decide), dedupGo_skip_f id n _ _ (by decide)]
  rfl

/-- No section header exists in the default map lines. -/
theorem find_section_default (id : Str) :
    findIdxOpt (fun l => startsWith ("## ".data ++ id) l)
      [mapLine0, [], mapLine2, []] = none := by
  simp only [findIdxOpt, sw_hash_line, sw_T_line, sw_nil_line,
    Bool.false_eq_true, if_false, Option.map_none']

/-- No trailing rule or footer exists in the default map lines. -/
theorem find_trailing_default :
    findIdxOpt
      (fun l => startsWith ("---".data) l || startsWith ("_This file".data) l)
      [mapLine0, [], mapLine2, []] = none := by
  decide

/-- Inserting into the default map appends a fresh section at the end. -/
theorem insert_default (id label entry : Str) :
    insertFileEntry [mapLine0, [], mapLine2, []] id label entry =
      [mapLine0, [], mapLine2, [],
       ('\n' :: "## ".data) ++ label ++ ('\n' :: []),
       "### Files\n".data, entry, []] := by
  unfold insertFileEntry
  rw [find_section_default, find_trailing_default]
  rfl

/-- For mutation classes other than INTENT_EVOLUTION, addFileToIntent is
the dedup-guarded insertion followed by the join. -/
theorem addFileToIntent_nonevo (intentId filePath : Str)
    (intentName : Option Str) (mc : Option MutationClass) (today : Str)
    (mapContent : Option Str)
    (hmc : mc ≠ some MutationClass.INTENT_EVOLUTION) :
    addFileToIntent intentId filePath intentName mc today mapContent =
      joinNl
        (if dedupGo intentId ('`' :: (filePath ++ ('`' :: [])))
            (splitOnNl (mapContent.getD defaultMapContent)) false then
          splitOnNl (mapContent.getD defaultMapContent)
        else
          insertFileEntry (splitOnNl (mapContent.getD defaultMapContent))
            intentId (labelOf intentId intentName)
            ('-' :: ' ' :: '`' :: (filePath ++ ('`' :: [])))) := by
  cases intentName <;>
    simp only [addFileToIntent, labelOf, if_neg hmc]

/-- The lines of the content produced by a first insertion into a missing
map: the embedded newlines of the fresh section re-split into separate
lines. -/
theorem split_of_first (label path : Str)
    (hlab : '\n' ∉ label) (hp : '\n' ∉ path) :
    splitOnNl (joinNl
      [mapLine0, [], mapLine2, [],
       ('\n' :: "## ".data) ++ label ++ ('\n' :: []),
       "### Files\n".data, ('-' :: ' ' :: '`' :: (path ++ ['`'])), []]) =
    [mapLine0, [], mapLine2, [], [],
     "## ".data ++ label, [], "### Files".data, [],
     ('-' :: ' ' :: '`' :: (path ++ ['`'])), []] := by
  have hlab2 : '\n' ∉ "## ".data ++ label := by
    intro hm
    rcases List.mem_append.mp hm with h | h
    · revert h; decide
    · exact hlab h
  have hent : '\n' ∉ ('-' :: ' ' :: '`' :: (path ++ ['`'])) := by
    intro hm
    simp only [List.mem_cons, List.mem_append, List.mem_singleton] at hm
    rcases hm with h | h | h | h | h
    · revert h; decide
    · revert h; decide
    · revert h; decide
    · exact hp h
    · revert h; decide
  have hJ : joinNl
      [mapLine0, [], mapLine2, [],
       ('\n' :: "## ".data) ++ label ++ ('\n' :: []),
       "### Files\n".data, ('-' :: ' ' :: '`' :: (path ++ ['`'])), []]
      = mapLine0 ++ '\n' :: '\n' :: (mapLine2 ++ '\n' :: '\n' :: '\n' ::
          (("## ".data ++ label) ++ '\n' :: '\n' ::
            ("### Files".data ++ '\n' :: '\n' ::
              (('-' :: ' ' :: '`' :: (path ++ ['`'])) ++ '\n' :: [])))) := by
    simp [joinNl, List.append_assoc]
  rw [hJ]
  rw [splitOnNl_append _ _ (by decide)]
  rw [splitOnNl_cons_nl]
  rw [splitOnNl_append _ _ (by decide)]
  rw [splitOnNl_cons_nl, splitOnNl_cons_nl]
  rw [splitOnNl_append _ _ hlab2]
  rw [splitOnNl_cons_nl]
  rw [splitOnNl_append _ _ (by decide)]
  rw [splitOnNl_cons_nl]
  rw [splitOnNl_append _ _ hent]
  rfl

/-- The section header built from the label contains the intent id. -/
theorem contains_id_label (id : Str) (nm : Option Str) :
    containsSub id ("## ".data ++ labelOf id nm) = true := by
  cases nm with
  | none =>
    show containsSub id ("## ".data ++ id) = true
    simp [containsSub]
    exact ⟨"## ".data, [], by simp⟩
  | some n =>
    show containsSub id ("## ".data ++ (id ++ ": ".data ++ n)) = true
    simp [containsSub]
    exact ⟨"## ".data, ": ".data ++ n, by simp⟩

/-- On the re-split lines of a first insertion, the duplicate scan finds
the file entry. -/
theorem dedup_second (id path : Str) (nm : Option Str) :
    dedupGo id ('`' :: (path ++ ['`']))
      [mapLine0, [], mapLine2, [], [],
       "## ".data ++ labelOf id nm, [], "### Files".data, [],
       ('-' :: ' ' :: '`' :: (path ++ ['`'])), []] false = true := by
  rw [dedupGo_skip_f _ _ _ _ (by decide)]
  rw [dedupGo_skip_f _ _ _ _ (by decide)]
  rw [dedupGo_skip_f _ _ _ _ (by decide)]
  rw [dedupGo_skip_f _ _ _ _ (by decide)]
  rw [dedupGo_skip_f _ _ _ _ (by decide)]
  rw [dedupGo_enter _ _ _ _ _ (startsWith_append_self _ _) (contains_id_label id nm)]
  rw [dedupGo_skip_t _ _ _ _ (by decide) (by simp [containsSub])]
  rw [dedupGo_skip_t _ _ _ _ (by decide)
    (containsSub_head_false '`' _ _ (by decide))]
  rw [dedupGo_skip_t _ _ _ _ (by decide) (by simp [containsSub])]
  rw [dedupGo_found _ _ _ _ (sw_ne_hd '#' '-' _ _ (by decide))
    (containsSub_cons2 '-' ' ' _)]

/-- Unfolding the join at a cons with a nonempty tail. -/
theorem joinNl_cons (a : Str) (rest : List Str) (h : rest ≠ []) :
    joinNl (a :: rest) = a ++ '\n' :: joinNl rest := by
  cases rest with
  | nil => exact absurd rfl h
  | cons x xs => rfl

/-- Every line produced by the split is newline-free. -/
theorem splitOnNl_nlfree_lines (s : Str) :
    ∀ l ∈ splitOnNl s, '\n' ∉ l := by
  induction s with
  | nil =>
    intro l hl
    simp [splitOnNl] at hl
    simp [hl]
  | cons c rest ih =>
    intro l hl
    by_cases hc : c = '\n'
    · subst hc
      rw [splitOnNl, if_pos rfl] at hl
      rcases List.mem_cons.mp hl with rfl | hl2
      · simp
      · exact ih l hl2
    · rw [splitOnNl, if_neg hc] at hl
      obtain ⟨x, xs, hx⟩ : ∃ x xs, splitOnNl rest = x :: xs := by
        cases h : splitOnNl rest with
        | nil => exact absurd h (splitOnNl_ne_nil rest)
        | cons x xs => exact ⟨x, xs, rfl⟩
      rw [hx] at hl
      rcases List.mem_cons.mp hl with rfl | hl2
      · intro hm
        rcases List.mem_cons.mp hm with h1 | h2
        · exact hc h1.symm
        · exact ih x (hx ▸ List.mem_cons_self x xs) h2
      · exact ih l (hx ▸ List.mem_cons_of_mem x hl2)

/-- Splitting the join of nonempty newline-free lines restores them. -/
theorem splitOnNl_joinNl_lines (L : List Str) (hne : L ≠ [])
    (h : ∀ l ∈ L, '\n' ∉ l) : splitOnNl (joinNl L) = L := by
  induction L with
  | nil => exact absurd rfl hne
  | cons a rest ih =>
    cases rest with
    | nil =>
      show splitOnNl a = [a]
      exact splitOnNl_nlfree a (h a (List.mem_cons_self a []))
    | cons b bs =>
      rw [joinNl_cons a (b :: bs) (by simp)]
      rw [splitOnNl_append a _ (h a (List.mem_cons_self a (b :: bs)))]
      rw [ih (by simp) (fun l hl => h l (List.mem_cons_of_mem a hl))]

/-- A line with the section prefix for an id is a section header. -/
theorem prefix_header_hdr (id l : Str)
    (h : startsWith ("## ".data ++ id) l = true) :
    startsWith ("## ".data) l = true := by
  simp [startsWith] at h ⊢
  obtain ⟨t, ht⟩ := h
  exact ⟨id ++ t, by rw [← ht]; simp⟩

/-- A line with the section prefix for an id contains the id. -/
theorem prefix_header_contains (id l : Str)
    (h : startsWith ("## ".data ++ id) l = true) :
    containsSub id l = true := by
  simp [startsWith] at h
  simp [containsSub]
  obtain ⟨t, ht⟩ := h
  exact ⟨"## ".data, t, by rw [← ht]; simp⟩

/-- findIndex misses exactly when no element satisfies the predicate. -/
theorem findIdxOpt_none_iff (p : α → Bool) (L : List α) :
    findIdxOpt p L = none ↔ ∀ l ∈ L, p l = false := by
  induction L with
  | nil => simp [findIdxOpt]
  | cons x xs ih =>
    rw [findIdxOpt]
    by_cases hx : p x = true
    · simp [hx]
    · simp only [Bool.not_eq_true] at hx
      simp [hx, ih]

/-- A findIndex hit splits the list at the first satisfying element. -/
theorem findIdxOpt_some_decomp (p : α → Bool) (L : List α) (i : Nat)
    (h : findIdxOpt p L = some i) :
    ∃ A x B, L = A ++ x :: B ∧ A.length = i ∧ p x = true
      ∧ ∀ a ∈ A, p a = false := by
  induction L generalizing i with
  | nil => simp [findIdxOpt] at h
  | cons y ys ih =>
    rw [findIdxOpt] at h
    by_cases hy : p y = true
    · rw [if_pos hy] at h
      injection h with h
      exact ⟨[], y, ys, by simp, h ▸ rfl, hy, by simp⟩
    · rw [if_neg hy] at h
      simp only [Bool.not_eq_true] at hy
      cases hrec : findIdxOpt p ys with
      | none => rw [hrec] at h; simp at h
      | some j =>
        rw [hrec] at h
        simp only [Option.map_some'] at h
        injection h with h
        obtain ⟨A, x, B, hL, hlen, hpx, hA⟩ := ih j hrec
        refine ⟨y :: A, x, B, by rw [hL]; rfl, by simp [hlen, ← h], hpx, ?_⟩
        intro a ha
        rcases List.mem_cons.mp ha with rfl | ha2
        · exact hy
        · exact hA a ha2

/-- The duplicate scan skips, out of the section, any line that is not a
header containing the id. -/
theorem dedupGo_skip2 (id n l : Str) (rest : List Str)
    (h : (startsWith ("## ".data) l && containsSub id l) = false) :
    dedupGo id n (l :: rest) false = dedupGo id n rest false := by
  simp [dedupGo, h]

/-- The duplicate scan skips a whole block of lines none of which is a
header containing the id. -/
theorem dedup_skip_many (id n : Str) (A rest : List Str)
    (hA : ∀ l ∈ A, (startsWith ("## ".data) l && containsSub id l) = false) :
    dedupGo id n (A ++ rest) false = dedupGo id n rest false := by
  induction A with
  | nil => rfl
  | cons a A' ih =>
    rw [List.cons_append,
      dedupGo_skip2 id n a _ (hA a (List.mem_cons_self a A'))]
    exact ih (fun l hl => hA l (List.mem_cons_of_mem a hl))

/-- The duplicate scan finds nothing when no line is a header containing
the id. -/
theorem dedup_no_enter (id n : Str) (L : List Str)
    (hL : ∀ l ∈ L, (startsWith ("## ".data) l && containsSub id l) = false) :
    dedupGo id n L false = false := by
  have := dedup_skip_many id n L [] hL
  rw [List.append_nil] at this
  rw [this]
  rfl

/-- Inside the section, the scan walking non-header lines reports a line
containing the needle. -/
theorem dedupGo_finds (id n : Str) (S : List Str) (l : Str) (rest : List Str)
    (hS : ∀ x ∈ S, startsWith ("## ".data) x = false)
    (hl : startsWith ("## ".data) l = false)
    (hn : containsSub n l = true) :
    dedupGo id n (S ++ l :: rest) true = true := by
  induction S with
  | nil => exact dedupGo_found id n l rest hl hn
  | cons s S' ih =>
    have hs : startsWith ("## ".data) s = false := hS s (List.mem_cons_self s S')
    by_cases hcs : containsSub n s = true
    · rw [List.cons_append, dedupGo_found id n s _ hs hcs]
    · simp only [Bool.not_eq_true] at hcs
      rw [List.cons_append, dedupGo_skip_t id n s _ hs hcs]
      exact ih (fun x hx => hS x (List.mem_cons_of_mem s hx))

/-- The backward blank-skip never moves forward. -/
theorem backSkip_le (lines : List Str) (low j : Nat) :
    backSkip lines low j ≤ j := by
  induction j with
  | zero => simp [backSkip]
  | succ k ih =>
    rw [backSkip]
    split
    · omega
    · omega

/-- The backward blank-skip never goes below the section header. -/
theorem backSkip_ge_low (lines : List Str) (low j : Nat) (h : low ≤ j) :
    low ≤ backSkip lines low j := by
  induction j with
  | zero => simpa [backSkip] using h
  | succ k ih =>
    rw [backSkip]
    split
    · rename_i hcond
      exact ih (by omega)
    · omega

/-- The forward header scan never goes backward. -/
theorem scanEnd_ge (lines : List Str) (i : Nat) (h : i ≤ lines.length) :
    i ≤ scanEnd lines i := by
  rw [scanEnd]
  cases findIdxOpt (fun l => startsWith ("## ".data) l) (lines.drop i) with
  | none => simpa using h
  | some k => simp

/-- Splitting a join peels a newline-free prefix of lines. -/
theorem split_join_append (A X : List Str) (hA : ∀ l ∈ A, '\n' ∉ l)
    (hX : X ≠ []) :
    splitOnNl (joinNl (A ++ X)) = A ++ splitOnNl (joinNl X) := by
  induction A with
  | nil => rfl
  | cons a A' ih =>
    have ha : '\n' ∉ a := hA a (List.mem_cons_self a A')
    rw [List.cons_append,
      joinNl_cons a (A' ++ X) (by simp [hX]),
      splitOnNl_append a _ ha,
      ih (fun l hl => hA l (List.mem_cons_of_mem a hl))]
    rfl

/-- The lines of a joined fresh section followed by a trailing block: the
embedded newlines re-split into separate lines. -/
theorem split_join_section_tail (T : List Str) (label path : Str)
    (hT : ∀ l ∈ T, '\n' ∉ l)
    (hlab2 : '\n' ∉ "## ".data ++ label)
    (hent : '\n' ∉ ('-' :: ' ' :: '`' :: (path ++ ['`']))) :
    splitOnNl (joinNl
      ([('\n' :: "## ".data) ++ label ++ ('\n' :: []),
        "### Files\n".data, ('-' :: ' ' :: '`' :: (path ++ ['`'])), []] ++ T))
    = [] :: ("## ".data ++ label) :: [] :: "### Files".data :: [] ::
        ('-' :: ' ' :: '`' :: (path ++ ['`'])) :: [] :: T := by
  cases T with
  | nil =>
    have hJ : joinNl
        ([('\n' :: "## ".data) ++ label ++ ('\n' :: []),
          "### Files\n".data, ('-' :: ' ' :: '`' :: (path ++ ['`'])), []]
          ++ ([] : List Str))
        = '\n' :: (("## ".data ++ label) ++ '\n' :: '\n' ::
            ("### Files".data ++ '\n' :: '\n' ::
              (('-' :: ' ' :: '`' :: (path ++ ['`'])) ++ '\n' :: []))) := by
      simp [joinNl, List.append_assoc]
    rw [hJ]
    rw [splitOnNl_cons_nl]
    rw [splitOnNl_append _ _ hlab2]
    rw [splitOnNl_cons_nl]
    rw [splitOnNl_append _ _ (by decide)]
    rw [splitOnNl_cons_nl]
    rw [splitOnNl_append _ _ hent]
    rfl
  | cons t T' =>
    have hJ : joinNl
        ([('\n' :: "## ".data) ++ label ++ ('\n' :: []),
          "### Files\n".data, ('-' :: ' ' :: '`' :: (path ++ ['`'])), []]
          ++ t :: T')
        = '\n' :: (("## ".data ++ label) ++ '\n' :: '\n' ::
            ("### Files".data ++ '\n' :: '\n' ::
              (('-' :: ' ' :: '`' :: (path ++ ['`'])) ++ '\n' :: '\n' ::
                joinNl (t :: T')))) := by
      simp [joinNl, List.append_assoc]
    rw [hJ]
    rw [splitOnNl_cons_nl]
    rw [splitOnNl_append _ _ hlab2]
    rw [splitOnNl_cons_nl]
    rw [splitOnNl_append _ _ (by decide)]
    rw [splitOnNl_cons_nl]
    rw [splitOnNl_append _ _ hent]
    rw [splitOnNl_cons_nl]
    rw [splitOnNl_joinNl_lines (t :: T') (by simp) hT]

/-- The lines of the content produced by inserting a fresh section between
two blocks of newline-free lines. -/
theorem split_join_newSection (A T : List Str) (label path : Str)
    (hA : ∀ l ∈ A, '\n' ∉ l) (hT : ∀ l ∈ T, '\n' ∉ l)
    (hlab : '\n' ∉ label) (hp : '\n' ∉ path) :
    splitOnNl (joinNl (A ++
      [('\n' :: "## ".data) ++ label ++ ('\n' :: []),
       "### Files\n".data, ('-' :: ' ' :: '`' :: (path ++ ['`'])), []] ++ T))
    = A ++ ([] :: ("## ".data ++ label) :: [] :: "### Files".data :: [] ::
        ('-' :: ' ' :: '`' :: (path ++ ['`'])) :: [] :: T) := by
  have hlab2 : '\n' ∉ "## ".data ++ label := by
    intro hm
    rcases List.mem_append.mp hm with h | h
    · revert h; decide
    · exact hlab h
  have hent : '\n' ∉ ('-' :: ' ' :: '`' :: (path ++ ['`'])) := by
    intro hm
    simp only [List.mem_cons, List.mem_append, List.mem_singleton] at hm
    rcases hm with h | h | h | h | h
    · revert h; decide
    · revert h; decide
    · revert h; decide
    · exact hp h
    · revert h; decide
  rw [List.append_assoc]
  rw [split_join_append A _ hA (by simp)]
  rw [split_join_section_tail T label path hT hlab2 hent]

/-- When the duplicate scan finds the file in the split of the current
content, addFileToIntent writes the content back unchanged. -/
theorem addFile_fixed_of_found (intentId filePath : Str)
    (intentName : Option Str) (mc : Option MutationClass) (today : Str)
    (c1 : Str) (hmc : mc ≠ some MutationClass.INTENT_EVOLUTION)
    (hfound : dedupGo intentId ('`' :: (filePath ++ ['`']))
      (splitOnNl c1) false = true) :
    addFileToIntent intentId filePath intentName mc today (some c1) = c1 := by
  rw [addFileToIntent_nonevo _ _ _ _ _ _ hmc]
  simp only [Option.getD_some]
  rw [hfound, if_pos rfl]
  exact joinNl_splitOnNl c1

/-- On the re-split lines of a fresh-section insertion, the duplicate scan
finds the file entry, whatever newline-free lines surround it. -/
theorem dedup_finds_newSection (intentId path : Str) (nm : Option Str)
    (A T : List Str)
    (hA : ∀ l ∈ A,
      (startsWith ("## ".data) l && containsSub intentId l) = false) :
    dedupGo intentId ('`' :: (path ++ ['`']))
      (A ++ ([] :: ("## ".data ++ labelOf intentId nm) :: [] ::
        "### Files".data :: [] ::
        ('-' :: ' ' :: '`' :: (path ++ ['`'])) :: [] :: T)) false = true := by
  rw [dedup_skip_many intentId _ A _ hA]
  rw [dedupGo_skip2 _ _ _ _ (by simp [startsWith])]
  rw [dedupGo_enter _ _ _ _ _ (startsWith_append_self _ _)
    (contains_id_label intentId nm)]
  rw [dedupGo_skip_t _ _ _ _ (by decide) (by simp [containsSub])]
  rw [dedupGo_skip_t _ _ _ _ (by decide)
    (containsSub_head_false '`' _ _ (by decide))]
  rw [dedupGo_skip_t _ _ _ _ (by decide) (by simp [containsSub])]
  rw [dedupGo_found _ _ _ _ (sw_ne_hd '#' '-' _ _ (by decide))
    (containsSub_cons2 '-' ' ' _)]

/-- The section label is newline-free when id and name are. -/
theorem labelOf_nlfree (intentId : Str) (nm : Option Str)
    (hid : '\n' ∉ intentId) (hnm : '\n' ∉ nm.getD []) :
    '\n' ∉ labelOf intentId nm := by
  cases nm with
  | none => exact hid
  | some n =>
    intro hm
    rcases List.mem_append.mp hm with h | h
    · rcases List.mem_append.mp h with h2 | h2
      · exact hid h2
      · revert h2; decide
    · exact hnm h

/-- The file entry line is newline-free when the path is. -/
theorem entry_nlfree (path : Str) (hp : '\n' ∉ path) :
    '\n' ∉ ('-' :: ' ' :: '`' :: (path ++ ['`'])) := by
  intro hm
  simp only [List.mem_cons, List.mem_append, List.mem_singleton] at hm
  rcases hm with h | h | h | h | h
  · revert h; decide
  · revert h; decide
  · revert h; decide
  · exact hp h
  · revert h; decide

/-- After a first insertion that created the section (no header of the map
has the section prefix), the duplicate scan of the re-split content finds
the entry, provided every header containing the id carries the section
prefix. -/
theorem dedup_after_insert_missing (intentId filePath : Str)
    (nm : Option Str) (c0 : Str)
    (hid : '\n' ∉ intentId) (hp : '\n' ∉ filePath) (hnm : '\n' ∉ nm.getD [])
    (H : ∀ l ∈ splitOnNl c0, startsWith ("## ".data) l = true →
      containsSub intentId l = true →
      startsWith ("## ".data ++ intentId) l = true)
    (hsec : findIdxOpt (fun l => startsWith ("## ".data ++ intentId) l)
      (splitOnNl c0) = none) :
    dedupGo intentId ('`' :: (filePath ++ ['`']))
      (splitOnNl (joinNl (insertFileEntry (splitOnNl c0) intentId
        (labelOf intentId nm)
        ('-' :: ' ' :: '`' :: (filePath ++ ['`']))))) false = true := by
  have hlab : '\n' ∉ labelOf intentId nm := labelOf_nlfree _ _ hid hnm
  have hLfree : ∀ l ∈ splitOnNl c0, '\n' ∉ l := splitOnNl_nlfree_lines c0
  have hAll : ∀ l ∈ splitOnNl c0,
      (startsWith ("## ".data) l && containsSub intentId l) = false := by
    intro l hl
    cases hsw : startsWith ("## ".data) l
    · simp
    · cases hcs : containsSub intentId l
      · simp
      · have hpre := H l hl hsw hcs
        have hno := (findIdxOpt_none_iff _ _).mp hsec l hl
        rw [hpre] at hno
        exact absurd hno (by simp)
  cases hfoot : findIdxOpt
      (fun l => startsWith ("---".data) l || startsWith ("_This file".data) l)
      (splitOnNl c0) with
  | none =>
    have hins : insertFileEntry (splitOnNl c0) intentId (labelOf intentId nm)
        ('-' :: ' ' :: '`' :: (filePath ++ ['`']))
        = splitOnNl c0 ++
          [('\n' :: "## ".data) ++ labelOf intentId nm ++ ('\n' :: []),
           "### Files\n".data,
           ('-' :: ' ' :: '`' :: (filePath ++ ['`'])), []] := by
      unfold insertFileEntry
      rw [hsec, hfoot]
    rw [hins]
    have hsplit := split_join_newSection (splitOnNl c0) [] (labelOf intentId nm)
      filePath hLfree (by simp) hlab hp
    rw [List.append_nil] at hsplit
    rw [hsplit]
    exact dedup_finds_newSection intentId filePath nm (splitOnNl c0) [] hAll
  | some t =>
    obtain ⟨F, f, Bf, hLdecomp, hlenF, hpf, hFfree⟩ :=
      findIdxOpt_some_decomp _ _ _ hfoot
    have hins : insertFileEntry (splitOnNl c0) intentId (labelOf intentId nm)
        ('-' :: ' ' :: '`' :: (filePath ++ ['`']))
        = spliceAt (splitOnNl c0) t
          [('\n' :: "## ".data) ++ labelOf intentId nm ++ ('\n' :: []),
           "### Files\n".data,
           ('-' :: ' ' :: '`' :: (filePath ++ ['`'])), []] := by
      unfold insertFileEntry
      rw [hsec, hfoot]
    have hshape : spliceAt (splitOnNl c0) t
        [('\n' :: "## ".data) ++ labelOf intentId nm ++ ('\n' :: []),
         "### Files\n".data,
         ('-' :: ' ' :: '`' :: (filePath ++ ['`'])), []]
        = F ++
          [('\n' :: "## ".data) ++ labelOf intentId nm ++ ('\n' :: []),
           "### Files\n".data,
           ('-' :: ' ' :: '`' :: (filePath ++ ['`'])), []] ++ (f :: Bf) := by
      unfold spliceAt
      rw [hLdecomp, ← hlenF, List.take_left, List.drop_left]
    rw [hins, hshape]
    rw [split_join_newSection F (f :: Bf) (labelOf intentId nm) filePath
      (fun l hl => hLfree l (by rw [hLdecomp]; exact List.mem_append_left _ hl))
      (fun l hl => hLfree l (by rw [hLdecomp]; exact List.mem_append_right _ hl))
      hlab hp]
    exact dedup_finds_newSection intentId filePath nm F (f :: Bf)
      (fun l hl => hAll l (by rw [hLdecomp]; exact List.mem_append_left _ hl))

/-- After a first insertion into an existing section, the duplicate scan of
the re-split content finds the entry, provided every header containing the
id carries the section prefix: the scan then enters exactly at the real
section, whose lines up to the insertion point are non-headers. -/
theorem dedup_after_insert_existing (intentId filePath : Str)
    (nm : Option Str) (c0 : Str) (s : Nat)
    (hp : '\n' ∉ filePath)
    (H : ∀ l ∈ splitOnNl c0, startsWith ("## ".data) l = true →
      containsSub intentId l = true →
      startsWith ("## ".data ++ intentId) l = true)
    (hsec : findIdxOpt (fun l => startsWith ("## ".data ++ intentId) l)
      (splitOnNl c0) = some s) :
    dedupGo intentId ('`' :: (filePath ++ ['`']))
      (splitOnNl (joinNl (insertFileEntry (splitOnNl c0) intentId
        (labelOf intentId nm)
        ('-' :: ' ' :: '`' :: (filePath ++ ['`']))))) false = true := by
  have hLfree : ∀ l ∈ splitOnNl c0, '\n' ∉ l := splitOnNl_nlfree_lines c0
  obtain ⟨A, hdr, B, hLdecomp, hlenA, hphdr, hAfree⟩ :=
    findIdxOpt_some_decomp _ _ _ hsec
  have hA2 : ∀ a ∈ A,
      (startsWith ("## ".data) a && containsSub intentId a) = false := by
    intro a ha
    cases hsw : startsWith ("## ".data) a
    · simp
    · cases hcs : containsSub intentId a
      · simp
      · have hpre := H a (by rw [hLdecomp]; exact List.mem_append_left _ ha)
          hsw hcs
        have hno := hAfree a ha
        rw [hpre] at hno
        exact absurd hno (by simp)
  have hins : insertFileEntry (splitOnNl c0) intentId (labelOf intentId nm)
      ('-' :: ' ' :: '`' :: (filePath ++ ['`']))
      = spliceAt (splitOnNl c0)
        (backSkip (splitOnNl c0) s (scanEnd (splitOnNl c0) (s + 1) - 1) + 1)
        [('-' :: ' ' :: '`' :: (filePath ++ ['`']))] := by
    unfold insertFileEntry
    rw [hsec]
  have hdrop : (splitOnNl c0).drop (s + 1) = B := by
    rw [hLdecomp, show A ++ hdr :: B = (A ++ [hdr]) ++ B by simp]
    rw [show s + 1 = (A ++ [hdr]).length by simp [hlenA]]
    exact List.drop_left _ _
  have hlenL : (splitOnNl c0).length = s + 1 + B.length := by
    rw [hLdecomp]
    simp [hlenA]
    omega
  have hiE_ge : s + 1 ≤ scanEnd (splitOnNl c0) (s + 1) :=
    scanEnd_ge _ _ (by omega)
  have hr_le : backSkip (splitOnNl c0) s (scanEnd (splitOnNl c0) (s + 1) - 1)
      ≤ scanEnd (splitOnNl c0) (s + 1) - 1 := backSkip_le _ _ _
  have hr_ge : s ≤ backSkip (splitOnNl c0) s
      (scanEnd (splitOnNl c0) (s + 1) - 1) :=
    backSkip_ge_low _ _ _ (by omega)
  have hMfacts : (∀ x ∈ B.take
        (backSkip (splitOnNl c0) s (scanEnd (splitOnNl c0) (s + 1) - 1) - s),
        startsWith ("## ".data) x = false)
      ∧ backSkip (splitOnNl c0) s (scanEnd (splitOnNl c0) (s + 1) - 1) - s
        ≤ B.length := by
    cases hB : findIdxOpt (fun l => startsWith ("## ".data) l) B with
    | none =>
      have hBfree := (findIdxOpt_none_iff _ _).mp hB
      have hscan : scanEnd (splitOnNl c0) (s + 1) = (splitOnNl c0).length := by
        rw [scanEnd, hdrop, hB]
      refine ⟨fun x hx => hBfree x (List.take_subset _ _ hx), ?_⟩
      omega
    | some k =>
      obtain ⟨M, h2, C, hBdecomp, hlenM, hph2, hMfree⟩ :=
        findIdxOpt_some_decomp _ _ _ hB
      have hscan : scanEnd (splitOnNl c0) (s + 1) = s + 1 + k := by
        rw [scanEnd, hdrop, hB]
      have hkB : k ≤ B.length := by
        rw [hBdecomp]
        simp [hlenM]
      have hmk : backSkip (splitOnNl c0) s
          (scanEnd (splitOnNl c0) (s + 1) - 1) - s ≤ k := by omega
      refine ⟨?_, by omega⟩
      intro x hx
      rw [hBdecomp, List.take_append_eq_append_take,
        show backSkip (splitOnNl c0) s (scanEnd (splitOnNl c0) (s + 1) - 1)
          - s - M.length = 0 by omega,
        List.take_zero, List.append_nil] at hx
      exact hMfree x (List.take_subset _ _ hx)
  have htake : ∀ r : Nat, s ≤ r →
      (splitOnNl c0).take (r + 1) = A ++ hdr :: B.take (r - s) := by
    intro r hr
    rw [hLdecomp, List.take_append_eq_append_take,
      List.take_of_length_le (by omega : A.length ≤ r + 1),
      show r + 1 - A.length = (r - s) + 1 by omega,
      List.take_succ_cons]
  have hshape : spliceAt (splitOnNl c0)
      (backSkip (splitOnNl c0) s (scanEnd (splitOnNl c0) (s + 1) - 1) + 1)
      [('-' :: ' ' :: '`' :: (filePath ++ ['`']))]
      = A ++ hdr :: (B.take
          (backSkip (splitOnNl c0) s (scanEnd (splitOnNl c0) (s + 1) - 1) - s)
        ++ ('-' :: ' ' :: '`' :: (filePath ++ ['`'])) ::
          (splitOnNl c0).drop
            (backSkip (splitOnNl c0) s
              (scanEnd (splitOnNl c0) (s + 1) - 1) + 1)) := by
    unfold spliceAt
    rw [htake _ hr_ge]
    simp [List.append_assoc]
  have hnl : ∀ l ∈ spliceAt (splitOnNl c0)
      (backSkip (splitOnNl c0) s (scanEnd (splitOnNl c0) (s + 1) - 1) + 1)
      [('-' :: ' ' :: '`' :: (filePath ++ ['`']))], '\n' ∉ l := by
    intro l hl
    rw [hshape] at hl
    rcases List.mem_append.mp hl with hl1 | hl2
    · exact hLfree l (by rw [hLdecomp]; exact List.mem_append_left _ hl1)
    · rcases List.mem_cons.mp hl2 with rfl | hl3
      · exact hLfree l
          (by rw [hLdecomp]
              exact List.mem_append_right _ (List.mem_cons_self _ _))
      · rcases List.mem_append.mp hl3 with hl4 | hl5
        · exact hLfree l
            (by rw [hLdecomp]
                exact List.mem_append_right _
                  (List.mem_cons_of_mem _ (List.take_subset _ _ hl4)))
        · rcases List.mem_cons.mp hl5 with rfl | hl6
          · exact entry_nlfree filePath hp
          · exact hLfree l (List.drop_subset _ _ hl6)
  rw [hins]
  rw [splitOnNl_joinNl_lines _ (by rw [hshape]; simp) hnl]
  rw [hshape]
  rw [dedup_skip_many _ _ A _ hA2]
  rw [dedupGo_enter _ _ _ _ _ (prefix_header_hdr _ _ hphdr)
    (prefix_header_contains _ _ hphdr)]
  exact dedupGo_finds _ _ _ _ _ hMfacts.1
    (sw_ne_hd '#' '-' _ _ (by decide)) (containsSub_cons2 '-' ' ' _)

/-- C9 as amended: for every intent id, file path, intent name, date and
initial map content (a missing file included), calling addFileToIntent
twice in succession with the same arguments leaves the same content as
calling it once, provided the mutation class is not INTENT_EVOLUTION and
every existing section header that contains the id as a substring is the
section's own header (prefix form) — the two hypotheses forced by the
counterexample.  The duplicate scan then finds the entry inserted by the
first call and the second call writes the content back unchanged. -/
theorem C9_spatial_add_idempotent_amended (intentId filePath : Str) (intentName : Option Str)
    (mc : Option MutationClass) (today : Str) (mapContent : Option Str)
    (hid : '\n' ∉ intentId) (hp : '\n' ∉ filePath)
    (hnm : '\n' ∉ intentName.getD [])
    (hmc : mc ≠ some MutationClass.INTENT_EVOLUTION)
    (H : ∀ l ∈ splitOnNl (mapContent.getD defaultMapContent),
      startsWith ("## ".data) l = true → containsSub intentId l = true →
      startsWith ("## ".data ++ intentId) l = true) :
    addFileToIntent intentId filePath intentName mc today
      (some (addFileToIntent intentId filePath intentName mc today mapContent))
    = addFileToIntent intentId filePath intentName mc today mapContent := by
  by_cases halready : dedupGo intentId ('`' :: (filePath ++ ['`']))
      (splitOnNl (mapContent.getD defaultMapContent)) false = true
  · have hfirst : addFileToIntent intentId filePath intentName mc today
        mapContent = mapContent.getD defaultMapContent := by
      rw [addFileToIntent_nonevo _ _ _ _ _ _ hmc, halready, if_pos rfl]
      exact joinNl_splitOnNl _
    rw [hfirst]
    exact addFile_fixed_of_found _ _ _ _ _ _ hmc halready
  · have halready2 : dedupGo intentId ('`' :: (filePath ++ ['`']))
        (splitOnNl (mapContent.getD defaultMapContent)) false = false := by
      simpa using halready
    have hfirst : addFileToIntent intentId filePath intentName mc today
        mapContent
        = joinNl (insertFileEntry (splitOnNl (mapContent.getD defaultMapContent))
            intentId (labelOf intentId intentName)
            ('-' :: ' ' :: '`' :: (filePath ++ ['`']))) := by
      rw [addFileToIntent_nonevo _ _ _ _ _ _ hmc, halready2,
        if_neg (by simp)]
    rw [hfirst]
    apply addFile_fixed_of_found _ _ _ _ _ _ hmc
    cases hsec : findIdxOpt
        (fun l => startsWith ("## ".data ++ intentId) l)
        (splitOnNl (mapContent.getD defaultMapContent)) with
    | none =>
      exact dedup_after_insert_missing intentId filePath intentName _
        hid hp hnm H hsec
    | some s =>
      exact dedup_after_insert_existing intentId filePath intentName _ s
        hp H hsec

/-- Counterexample to C9 as stated, in its two failure modes: with
mutationClass INTENT_EVOLUTION the dated evolution marker is appended on
every call, and with a stray header containing the id as a substring
(content with sections XINT-001, Y and INT-001) the duplicate scan breaks
at the unrelated header while insertion targets the prefix-matched
section, so the second identical call inserts a duplicate entry. -/
theorem C9_counterexample :
    (addFileToIntent ("INT-001".data) ("a.ts".data) (some ("N".data))
        (some MutationClass.INTENT_EVOLUTION) ("2026-02-18".data)
        (some (addFileToIntent ("INT-001".data) ("a.ts".data) (some ("N".data))
          (some MutationClass.INTENT_EVOLUTION) ("2026-02-18".data) none))
      ≠ addFileToIntent ("INT-001".data) ("a.ts".data) (some ("N".data))
        (some MutationClass.INTENT_EVOLUTION) ("2026-02-18".data) none)
    ∧ (addFileToIntent ("INT-001".data) ("a.ts".data) none none
        ("2026-02-18".data)
        (some (addFileToIntent ("INT-001".data) ("a.ts".data) none none
          ("2026-02-18".data)
          (some ("## XINT-001\n## Y\n## INT-001\n### Files\n- `b.ts`\n".data))))
      ≠ addFileToIntent ("INT-001".data) ("a.ts".data) none none
        ("2026-02-18".data)
        (some ("## XINT-001\n## Y\n## INT-001\n### Files\n- `b.ts`\n".data))) := by
  constructor
  · decide
  · decide

/-- Witness for C9's amended theorem at a concrete pre-existing map whose
section INT-001 already lists another file. -/
theorem C9_spatial_add_idempotent_amended_witness :
    addFileToIntent ("INT-001".data) ("a.ts".data) (some ("Hook".data)) none
        ("2026-02-18".data)
        (some (addFileToIntent ("INT-001".data) ("a.ts".data)
          (some ("Hook".data)) none ("2026-02-18".data)
          (some ("# Intent-Code Spatial Map\n\n## INT-001: Hook\n### Files\n- `b.ts`\n\n---\n".data))))
      = addFileToIntent ("INT-001".data) ("a.ts".data) (some ("Hook".data))
        none ("2026-02-18".data)
        (some ("# Intent-Code Spatial Map\n\n## INT-001: Hook\n### Files\n- `b.ts`\n\n---\n".data)) :=
  C9_spatial_add_idempotent_amended _ _ _ _ _ _ (by decide) (by decide) (by decide) (by simp)
    (by decide)

end Hooks
